import Mathlib

/-
Verification of the throwsage-viewer specification against a shallow
embedding of the source (src/Rob22_small/viewer.js — three concatenated
documents: the 3D viewer, the annotate app controller, the tagger state
module — and src/Rob22_small/tagger-app.js).

Numeric convention: the JavaScript floating-point arithmetic is modelled by
exact arithmetic — ℚ where the code is purely rational, and a general
linear ordered field (instantiated at ℝ) for the ellipse-fit engine, whose
square root / atan2 / π are passed as parameters and instantiated with
Real.sqrt, Complex.arg and Real.pi.
-/

namespace ThrowSage

/-! ## Shared geometry types -/

/-- A planar point (pixel coordinates), `{x, y}` in the source. -/
structure Pt (α : Type) where
  x : α
  y : α
deriving DecidableEq, Repr

/-- Result of the ellipse fit: `{cx, cy, major, minor, rotation}` in the source. -/
structure EllipseDesc (α : Type) where
  cx : α
  cy : α
  major : α
  minor : α
  rotation : α
deriving DecidableEq, Repr

/-! ## Keypoint accessor (viewer.js lines 60-75)

`keypointsData` is a flat Float32Array, modelled as `ℕ → ℚ`;
`isWorldSpace` is the session coordinate-space flag. -/

/-- viewer.js `camToThree(x, y, z)`: identity in world space, `(x, -y, -z)` flip
for camera-space data. -/
def camToThree (isWorldSpace : Bool) (x y z : ℚ) : ℚ × ℚ × ℚ :=
  if isWorldSpace then (x, y, z) else (x, -y, -z)

/-- viewer.js `getKp(frame, idx)`: reads the keypoint triple at flat offset
`(frame*70 + idx)*3`, flipping y and z unless the data is world-space. -/
def getKp (isWorldSpace : Bool) (keypointsData : ℕ → ℚ) (frame idx : ℕ) : ℚ × ℚ × ℚ :=
  let off := (frame * 70 + idx) * 3
  if isWorldSpace then
    (keypointsData off, keypointsData (off + 1), keypointsData (off + 2))
  else
    (keypointsData off, -keypointsData (off + 1), -keypointsData (off + 2))

/-! ## Scrubber handlers (viewer.js initUI 1772-1779, initScrubber 3125-3132,
tagger-app.js initScrubber 328-335)

Only the playback-relevant state is modelled: the `playing` flag and
`currentFrame`. Rendering / DOM side effects are out of scope. -/

/-- Playback state shared by all three scrub handlers. -/
structure PlayState where
  playing : Bool
  currentFrame : ℤ
deriving DecidableEq, Repr

/-- `seekToFrame(f)` (viewer.js 2826-2829 / tagger-app.js 143-146): clamp the
frame to `[0, totalFrames-1]` and set the current frame. -/
def seekToFrame (totalFrames : ℤ) (f : ℤ) (st : PlayState) : PlayState :=
  let f1 := if f < 0 then 0 else f
  let f2 := if totalFrames ≤ f1 then totalFrames - 1 else f1
  { st with currentFrame := f2 }

/-- The 3D viewer's scrubber input handler (viewer.js initUI, lines 1776-1779):
`currentFrame = parseInt(e.target.value); updateFrame(currentFrame)`.
It does not touch the `playing` flag. -/
def viewerScrubInput (v : ℤ) (st : PlayState) : PlayState :=
  { st with currentFrame := v }

/-- The annotate app's scrubber input handler (viewer.js initScrubber,
lines 3128-3131): pause if playing, then `seekToFrame(parseInt(value))`. -/
def annotateScrubInput (totalFrames : ℤ) (v : ℤ) (st : PlayState) : PlayState :=
  let st1 := if st.playing then { st with playing := false } else st
  seekToFrame totalFrames v st1

/-- The tagger app's scrubber input handler (tagger-app.js initScrubber,
lines 331-334): pause if playing, then `seekToFrame(parseInt(value))`. -/
def taggerScrubInput (totalFrames : ℤ) (v : ℤ) (st : PlayState) : PlayState :=
  let st1 := if st.playing then { st with playing := false } else st
  seekToFrame totalFrames v st1

/-! ## Tagger state module (viewer.js lines 3475-3785, the tagger.js document)

Ball-marker coordinates and circle parameters are floats in the source,
modelled as ℚ. Save's localStorage write is the persistence collaborator;
its success/failure is abstracted as the boolean `storeOk` (the source
catches the exception and reports `{ok:false, error}`). -/

/-- A ball marker `{frame, x, y}`. -/
structure BallMarker where
  frame : ℕ
  x : ℚ
  y : ℚ
deriving DecidableEq, Repr

/-- The `deleted` tags record built by `deleteAtFrame` (presence encoded as in
the source: a field is restored on undo only when it was recorded). -/
structure DeleteTags where
  throwStart : Option ℕ
  release : Option ℕ
  turn : Bool
  ss : Bool
  ds : Bool
  ball : Option BallMarker
deriving DecidableEq, Repr

/-- Undo-stack actions (the tagged records pushed by the tag operations). -/
inductive TagAction where
  | throw_start (prev : Option ℕ)
  | release (prev : Option ℕ)
  | turn_add (frame : ℕ)
  | ss_add (frame : ℕ)
  | ds_add (frame : ℕ)
  | circle_zero (prev : Option (ℚ × ℚ))
  | circle_ellipse (prev : Option (EllipseDesc ℚ))
  | circle_zero_deg_angle (prev : Option ℚ)
  | ball_add (frame : ℕ) (prev : Option BallMarker)
  | delete (frame : ℕ) (tags : DeleteTags)
deriving DecidableEq, Repr

/-- The tagger module's top-level mutable state. -/
structure TagState where
  throwStart : Option ℕ := none
  release : Option ℕ := none
  turnBoundaries : List ℕ := []
  ssBoundaries : List ℕ := []
  dsBoundaries : List ℕ := []
  ballMarkers : List BallMarker := []
  circleDegZero : Option (ℚ × ℚ) := none
  circleEllipse : Option (EllipseDesc ℚ) := none
  circleZeroDegAngle : Option ℚ := none
  dirty : Bool := false
  undoStack : List TagAction := []
deriving DecidableEq, Repr

/-- The fresh session state (all tag fields empty). -/
def initTagState : TagState := {}

/-- JS `array.sort((a, b) => a - b)` on a frame list: ascending sort. -/
def sortNat (l : List ℕ) : List ℕ :=
  l.mergeSort (fun a b => decide (a ≤ b))

/-- JS `ballMarkers.sort((a, b) => a.frame - b.frame)`: ascending by frame. -/
def sortBalls (l : List BallMarker) : List BallMarker :=
  l.mergeSort (fun a b => decide (a.frame ≤ b.frame))

/-- The frame-match predicate `m => m.frame === frame` used by the ball-marker
`findIndex` / `find` calls. -/
def ballPred (f : ℕ) : BallMarker → Bool := fun m => decide (m.frame = f)

/-- `getBallAt(frame)` (tagger lines 3704-3706): first marker at that frame. -/
def getBallAt (f : ℕ) (st : TagState) : Option BallMarker :=
  st.ballMarkers.find? (ballPred f)

/-- `addBall(frame, x, y)` (tagger lines 3624-3634): splice any existing marker
at the frame, push a `ball_add` action carrying it, insert the new marker,
re-sort, mark dirty. -/
def addBall (f : ℕ) (x y : ℚ) (st : TagState) : TagState :=
  let prev := st.ballMarkers.find? (ballPred f)
  let removed := st.ballMarkers.eraseP (ballPred f)
  { st with
    undoStack := TagAction.ball_add f prev :: st.undoStack,
    ballMarkers := sortBalls (removed ++ [⟨f, x, y⟩]),
    dirty := true }

/-- The `deleted` record collected by `deleteAtFrame` (tagger lines 3670-3682):
what is present at the frame, per tag category. -/
def delTags (f : ℕ) (st : TagState) : DeleteTags :=
  ⟨if st.throwStart = some f then some f else none,
   if st.release = some f then some f else none,
   st.turnBoundaries.contains f, st.ssBoundaries.contains f,
   st.dsBoundaries.contains f, st.ballMarkers.find? (ballPred f)⟩

/-- The `any` flag of `deleteAtFrame`: some tag category fired. -/
def delAny (f : ℕ) (st : TagState) : Bool :=
  (delTags f st).throwStart.isSome || (delTags f st).release.isSome ||
    (delTags f st).turn || (delTags f st).ss || (delTags f st).ds ||
    (delTags f st).ball.isSome

/-- `deleteAtFrame(frame)` (tagger lines 3669-3689): remove every tag present at
exactly that frame, recording what was removed in a single `delete` action;
a no-op returning null when nothing was present. -/
def deleteAtFrame (f : ℕ) (st : TagState) : TagState :=
  if delAny f st then
    { st with
      throwStart := if st.throwStart = some f then none else st.throwStart,
      release := if st.release = some f then none else st.release,
      turnBoundaries := st.turnBoundaries.eraseP (fun b => decide (b = f)),
      ssBoundaries := st.ssBoundaries.eraseP (fun b => decide (b = f)),
      dsBoundaries := st.dsBoundaries.eraseP (fun b => decide (b = f)),
      ballMarkers := st.ballMarkers.eraseP (ballPred f),
      undoStack := TagAction.delete f (delTags f st) :: st.undoStack,
      dirty := true }
  else st

/-- `undo()` (tagger lines 3549-3616): pop one action and reverse it; marks the
state dirty. Restores set-valued fields by re-inserting and re-sorting. -/
def undo (st : TagState) : TagState :=
  match st.undoStack with
  | [] => st
  | a :: rest =>
    let st1 := { st with undoStack := rest, dirty := true }
    match a with
    | TagAction.throw_start prev => { st1 with throwStart := prev }
    | TagAction.release prev => { st1 with release := prev }
    | TagAction.turn_add f =>
      { st1 with turnBoundaries := st1.turnBoundaries.eraseP (fun b => decide (b = f)) }
    | TagAction.ss_add f =>
      { st1 with ssBoundaries := st1.ssBoundaries.eraseP (fun b => decide (b = f)) }
    | TagAction.ds_add f =>
      { st1 with dsBoundaries := st1.dsBoundaries.eraseP (fun b => decide (b = f)) }
    | TagAction.circle_zero prev => { st1 with circleDegZero := prev }
    | TagAction.circle_ellipse prev => { st1 with circleEllipse := prev }
    | TagAction.circle_zero_deg_angle prev => { st1 with circleZeroDegAngle := prev }
    | TagAction.ball_add f prev =>
      let removed := st1.ballMarkers.eraseP (ballPred f)
      { st1 with
        ballMarkers := match prev with
          | some m => sortBalls (removed ++ [m])
          | none => removed }
    | TagAction.delete f tags =>
      { st1 with
        throwStart := match tags.throwStart with
          | some v => some v
          | none => st1.throwStart,
        release := match tags.release with
          | some v => some v
          | none => st1.release,
        turnBoundaries :=
          if tags.turn then sortNat (st1.turnBoundaries ++ [f]) else st1.turnBoundaries,
        ssBoundaries :=
          if tags.ss then sortNat (st1.ssBoundaries ++ [f]) else st1.ssBoundaries,
        dsBoundaries :=
          if tags.ds then sortNat (st1.dsBoundaries ++ [f]) else st1.dsBoundaries,
        ballMarkers := match tags.ball with
          | some m => sortBalls (st1.ballMarkers ++ [m])
          | none => st1.ballMarkers }

/-- Validation / storage outcomes of `save()`. The source returns
`{ok:false, error: <message>}`; the distinct messages are modelled as an
enumeration. -/
inductive SaveResult where
  | ok
  | errNoT0
  | errNoRelease
  | errOutOfOrder
  | errStorage
deriving DecidableEq, Repr

/-- `save()` (tagger lines 3758-3785): validation errors return before any
mutation; on success the payload is written to the persistence backend
(abstracted by `storeOk`) and the dirty flag is cleared; a storage exception
is caught and reported without clearing the flag. -/
def save (storeOk : Bool) (st : TagState) : SaveResult × TagState :=
  match st.throwStart, st.release with
  | none, _ => (SaveResult.errNoT0, st)
  | some _, none => (SaveResult.errNoRelease, st)
  | some t0, some r =>
    if r ≤ t0 then (SaveResult.errOutOfOrder, st)
    else if storeOk then (SaveResult.ok, { st with dirty := false })
    else (SaveResult.errStorage, st)

/-- `tagsAtFrame`-style presence predicate: some tag exists at frame `f`
(mirrors the `any` flag computed by `deleteAtFrame`). -/
def anyTagAt (f : ℕ) (st : TagState) : Prop :=
  st.throwStart = some f ∨ st.release = some f ∨ f ∈ st.turnBoundaries ∨
    f ∈ st.ssBoundaries ∨ f ∈ st.dsBoundaries ∨ (getBallAt f st).isSome = true

/-- The ball-marker mutation operations considered by the sortedness claim. -/
inductive BallOp where
  | add (f : ℕ) (x y : ℚ)
  | deleteAt (f : ℕ)
  | undoOp
deriving DecidableEq, Repr

/-- Apply one ball-marker operation to the tagger state. -/
def applyBallOp (st : TagState) : BallOp → TagState
  | BallOp.add f x y => addBall f x y st
  | BallOp.deleteAt f => deleteAtFrame f st
  | BallOp.undoOp => undo st

/-- Run a sequence of ball-marker operations from a starting state. -/
def runBallOps (st : TagState) (ops : List BallOp) : TagState :=
  ops.foldl applyBallOp st

/-- The ball-marker list invariant: strictly ascending by frame — which is
exactly "sorted ascending with at most one marker per frame". -/
def ballsOrdered (l : List BallMarker) : Prop :=
  l.Pairwise (fun a b => a.frame < b.frame)

/-- Projection of `undo` to its effect on the ball-marker list alone. -/
def ballUndo (a : TagAction) (l : List BallMarker) : List BallMarker :=
  match a with
  | TagAction.ball_add f prev =>
    let removed := l.eraseP (ballPred f)
    (match prev with
     | some m => sortBalls (removed ++ [m])
     | none => removed)
  | TagAction.delete _ tags =>
    (match tags.ball with
     | some m => sortBalls (l ++ [m])
     | none => l)
  | _ => l

/-- Coherence of the undo stack with the current ball-marker list: popping the
actions in order is always safe — a `ball_add` action's recorded previous
marker sits at the action's own frame, and a `delete` action's recorded marker
is only re-inserted when its frame is currently absent. -/
def StackOK : List TagAction → List BallMarker → Prop
  | [], _ => True
  | a :: rest, l =>
    (match a with
     | TagAction.ball_add f prev => ∀ m, prev = some m → m.frame = f
     | TagAction.delete f tags =>
       ∀ m, tags.ball = some m → m.frame = f ∧ ∀ x ∈ l, x.frame ≠ f
     | _ => True) ∧ StackOK rest (ballUndo a l)

/-- The inductive invariant for the ball-marker claims: the list is strictly
sorted by frame and the undo stack is coherent with it. -/
def TagInv (st : TagState) : Prop :=
  ballsOrdered st.ballMarkers ∧ StackOK st.undoStack st.ballMarkers

/-! ## Orbit-extremes detector (viewer.js lines 438-503)

The hammer-position array is per-frame triples; a NaN x-coordinate or an
exact zero vector is the "untracked" sentinel. Floats are modelled as ℚ and
the NaN sentinel as `none`. -/

/-- `hammerY(f)` (lines 448-453): `null` when the sample is invalid (NaN or
zero vector), else the Y component after the coordinate-space transform. -/
def hammerYat (isWorldSpace : Bool) (hammer : ℕ → Option (ℚ × ℚ × ℚ)) (f : ℕ) : Option ℚ :=
  match hammer f with
  | none => none
  | some (x, y, z) =>
    if x = 0 ∧ y = 0 ∧ z = 0 then none
    else some (camToThree isWorldSpace x y z).2.1

/-- `hammerPos(f)` (lines 455-458): the transformed position (the source does
not re-check validity here; it is only called at frames found valid). -/
def hammerPosAt (isWorldSpace : Bool) (hammer : ℕ → Option (ℚ × ℚ × ℚ)) (f : ℕ) :
    Option (ℚ × ℚ × ℚ) :=
  (hammer f).map (fun t => camToThree isWorldSpace t.1 t.2.1 t.2.2)

/-- One iteration of the max-scan loop body (lines 467-470): a valid height
strictly above the running maximum takes over (`none` plays -Infinity). -/
def maxStep (hy : ℕ → Option ℚ) (acc : Option (ℕ × ℚ)) (f : ℕ) : Option (ℕ × ℚ) :=
  match hy f with
  | none => acc
  | some y =>
    match acc with
    | none => some (f, y)
    | some (mf, my) => if my < y then some (f, y) else some (mf, my)

/-- The max-scan loop (lines 466-470) over frames `segStart..segEnd`. -/
def findMaxFrame (hy : ℕ → Option ℚ) (s e : ℕ) : Option (ℕ × ℚ) :=
  (List.range' s (e + 1 - s)).foldl (maxStep hy) none

/-- One iteration of the min-scan loop body (lines 494-497). -/
def minStep (hy : ℕ → Option ℚ) (acc : Option (ℕ × ℚ)) (f : ℕ) : Option (ℕ × ℚ) :=
  match hy f with
  | none => acc
  | some y =>
    match acc with
    | none => some (f, y)
    | some (mf, my) => if y < my then some (f, y) else some (mf, my)

/-- The min-scan loop (lines 491-497) over frames `segStart..segEnd`. -/
def findMinFrame (hy : ℕ → Option ℚ) (s e : ℕ) : Option (ℕ × ℚ) :=
  (List.range' s (e + 1 - s)).foldl (minStep hy) none

/-- Extremum type: high point or low point. -/
inductive ExtKind where
  | high
  | low
deriving DecidableEq, Repr

/-- One entry of `orbitExtremes`: frame, transformed position, type, and the
frame-span of the segment it was found in. -/
structure OrbitExtreme where
  frame : ℕ
  pos : Option (ℚ × ℚ × ℚ)
  kind : ExtKind
  turnFrameCount : ℤ
deriving DecidableEq, Repr

/-- `precomputeOrbitExtremes()` (lines 438-503): one high per inter-boundary
segment, then one low per gap between consecutive highs, the first gap
starting a half-turn-width before the first boundary (clamped at 0, as ℕ
subtraction; `Math.round(d/2)` on an ascending boundary pair is `(d+1)/2`)
and the last gap ending at the release frame. -/
def precomputeOrbitExtremes (isWorldSpace : Bool) (hammer : ℕ → Option (ℚ × ℚ × ℚ))
    (boundaries : List ℕ) (throwRelease : ℕ) : List OrbitExtreme :=
  if boundaries.length < 2 then [] else
  let hy := hammerYat isWorldSpace hammer
  let segs := boundaries.zip boundaries.tail
  let highPairs := segs.filterMap
    (fun se => (findMaxFrame hy se.1 se.2).map (fun p => (p.1, se.1, se.2)))
  let highs := highPairs.map
    (fun t => OrbitExtreme.mk t.1 (hammerPosAt isWorldSpace hammer t.1) ExtKind.high
      ((t.2.2 : ℤ) - (t.2.1 : ℤ)))
  let highFrames := highPairs.map (fun t => t.1)
  let halfTurn :=
    if 2 ≤ boundaries.length then (boundaries.getD 1 0 - boundaries.getD 0 0 + 1) / 2 else 10
  let lowSearchStart := boundaries.getD 0 0 - halfTurn
  let lowSegs : List (ℕ × ℕ) :=
    match highFrames with
    | [] => []
    | h0 :: _ =>
      ((lowSearchStart, h0) :: highFrames.zip highFrames.tail) ++
        [(highFrames.getLastD 0, throwRelease)]
  let lows := lowSegs.filterMap
    (fun se => (findMinFrame hy se.1 se.2).map
      (fun p => OrbitExtreme.mk p.1 (hammerPosAt isWorldSpace hammer p.1) ExtKind.low
        ((se.2 : ℤ) - (se.1 : ℤ))))
  highs ++ lows

/-! ## Ellipse fit engine (viewer.js annotate document, lines 2404-2551)

Polymorphic over a linear ordered field; `sqrtF`, `atan2F` and `piF` stand
for `Math.sqrt`, `Math.atan2` and `Math.PI` and are instantiated at ℝ with
`Real.sqrt`, `Complex.arg` and `Real.pi`. `W` is `canvas.width`. -/

section FitEngine

variable {α : Type} [LinearOrderedField α]

/-- `1e-12`, the pivot threshold in `fitEllipseFull`. -/
def eps12 : α := 1 / 1000000000000

/-- `1e-10`, the determinant threshold in `fitCircleAsEllipse`. -/
def eps10 : α := 1 / 10000000000

/-- `fitCircleAsEllipse(points)` (lines 2422-2449): linearized least-squares
circle fit; fails on a near-singular system or an out-of-range radius. -/
def fitCircleAsEllipse (sqrtF : α → α) (W : α) (points : List (Pt α)) :
    Option (EllipseDesc α) :=
  let n : α := points.length
  let Sx := points.foldl (fun s p => s + p.x) 0
  let Sy := points.foldl (fun s p => s + p.y) 0
  let Sxx := points.foldl (fun s p => s + p.x * p.x) 0
  let Syy := points.foldl (fun s p => s + p.y * p.y) 0
  let Sxy := points.foldl (fun s p => s + p.x * p.y) 0
  let Sxxx := points.foldl (fun s p => s + p.x * p.x * p.x) 0
  let Syyy := points.foldl (fun s p => s + p.y * p.y * p.y) 0
  let Sxxy := points.foldl (fun s p => s + p.x * p.x * p.y) 0
  let Sxyy := points.foldl (fun s p => s + p.x * p.y * p.y) 0
  let A := n * Sxx - Sx * Sx
  let B := n * Sxy - Sx * Sy
  let C := n * Syy - Sy * Sy
  let D := (1 / 2 : α) * (n * (Sxxx + Sxyy) - Sx * (Sxx + Syy))
  let E := (1 / 2 : α) * (n * (Sxxy + Syyy) - Sy * (Sxx + Syy))
  let det := A * C - B * B
  if |det| < eps10 then none
  else
    let cx := (D * C - B * E) / det
    let cy := (A * E - B * D) / det
    let r := sqrtF ((Sxx + Syy - 2 * cx * Sx - 2 * cy * Sy) / n + cx * cx + cy * cy)
    if r < 10 ∨ W < r then none
    else some ⟨cx, cy, r, r, 0⟩

/-- One row of the design matrix `[x², xy, y², x, y]`. -/
def designRow (p : Pt α) : Fin 5 → α :=
  ![p.x * p.x, p.x * p.y, p.y * p.y, p.x, p.y]

/-- An augmented row `[x², xy, y², x, y | -1]` (the `n === 5` branch). -/
def augRow (p : Pt α) : Fin 6 → α :=
  ![p.x * p.x, p.x * p.y, p.y * p.y, p.x, p.y, -1]

/-- One row of the 5×6 normal-equations system (the `n > 5` branch):
`row[j] = Σₖ M[k][i]·M[k][j]` for `j < 5` and `Σₖ M[k][i]·(-1)` at `j = 5`. -/
def normalRow (M : List (Fin 5 → α)) (i : Fin 5) : Fin 6 → α := fun j =>
  if h : (j : ℕ) < 5 then M.foldl (fun s r => s + r i * r ⟨j, h⟩) 0
  else M.foldl (fun s r => s + r i * (-1)) 0

/-- The augmented system passed to Gaussian elimination (lines 2458-2484). -/
def buildSys (points : List (Pt α)) : List (Fin 6 → α) :=
  if points.length = 5 then points.map augRow
  else (List.finRange 5).map (normalRow (points.map designRow))

/-- Partial-pivot search (lines 2489-2496): index of the first row (from the
current one down) whose `|entry|` at the column is maximal; the scan starts at
the current row's value and only a strictly greater value replaces it. -/
def argmaxAbsAux (col : Fin 6) : List (Fin 6 → α) → ℕ → ℕ → α → ℕ
  | [], _, best, _ => best
  | r :: rest, i, best, bestVal =>
    if bestVal < |r col| then argmaxAbsAux col rest (i + 1) i |r col|
    else argmaxAbsAux col rest (i + 1) best bestVal

/-- Pivot row index (relative to the current row) for a column. -/
def pivotIdx (col : Fin 6) (l : List (Fin 6 → α)) : ℕ :=
  match l with
  | [] => 0
  | r :: rest => argmaxAbsAux col rest 1 0 |r col|

/-- The JS swap `[sys[col], sys[maxRow]] = [sys[maxRow], sys[col]]`, acting on
the not-yet-settled rows (position 0 is the current row). -/
def swapFront (l : List (Fin 6 → α)) (i : ℕ) : List (Fin 6 → α) :=
  (l.set 0 (l.getD i (fun _ => 0))).set i (l.getD 0 (fun _ => 0))

/-- The row update of the elimination inner loop (lines 2499-2502):
`sys[row][j] -= (sys[row][col]/sys[col][col]) * sys[col][j]` for `j ≥ col`. -/
def reduceRow (col : Fin 6) (p r : Fin 6 → α) : Fin 6 → α := fun j =>
  if col ≤ j then r j - r col / p col * p j else r j

/-- The column loop of Gaussian elimination with partial pivoting
(lines 2487-2503); `none` models the `return fitCircleAsEllipse(points)`
bail-out on a negligible pivot. The fuel argument is the number of remaining
rows (each step settles exactly one row). -/
def elimAux : ℕ → List (Fin 6 → α) → List (Fin 6 → α) → Option (List (Fin 6 → α))
  | _, settled, [] => some settled
  | 0, _, _ :: _ => none
  | fuel + 1, settled, r :: rest =>
    if h6 : settled.length < 6 then
      let col : Fin 6 := ⟨settled.length, h6⟩
      match swapFront (r :: rest) (pivotIdx col (r :: rest)) with
      | [] => none
      | p :: rest2 =>
        if |p col| < eps12 then none
        else elimAux fuel (settled ++ [p]) (rest2.map (reduceRow col p))
    else none

/-- Gaussian elimination of the whole system. -/
def gaussElim (rows : List (Fin 6 → α)) : Option (List (Fin 6 → α)) :=
  elimAux rows.length [] rows

/-- Back substitution (lines 2506-2511) on the 5 settled rows. -/
def backSubst (tri : List (Fin 6 → α)) : Fin 5 → α :=
  match tri with
  | [t0, t1, t2, t3, t4] =>
    let x4 := t4 5 / t4 4
    let x3 := (t3 5 - t3 4 * x4) / t3 3
    let x2 := (t2 5 - t2 3 * x3 - t2 4 * x4) / t2 2
    let x1 := (t1 5 - t1 2 * x2 - t1 3 * x3 - t1 4 * x4) / t1 1
    let x0 := (t0 5 - t0 1 * x1 - t0 2 * x2 - t0 3 * x3 - t0 4 * x4) / t0 0
    ![x0, x1, x2, x3, x4]
  | _ => fun _ => 0

/-- The conic discriminant `B² - 4AC` (line 2517). -/
def conicDisc (sol : Fin 5 → α) : α :=
  sol 1 * sol 1 - 4 * sol 0 * sol 2

/-- `4AC - B²` (line 2521). -/
def conicDenom (sol : Fin 5 → α) : α :=
  4 * sol 0 * sol 2 - sol 1 * sol 1

/-- Center x `(BE - 2CD)/(4AC - B²)` (line 2522). -/
def conicCx (sol : Fin 5 → α) : α :=
  (sol 1 * sol 4 - 2 * sol 2 * sol 3) / conicDenom sol

/-- Center y `(BD - 2AE)/(4AC - B²)` (line 2523). -/
def conicCy (sol : Fin 5 → α) : α :=
  (sol 1 * sol 3 - 2 * sol 0 * sol 4) / conicDenom sol

/-- Rotation `0.5·atan2(B, A - C)` (line 2526). -/
def conicRot (atan2F : α → α → α) (sol : Fin 5 → α) : α :=
  (1 / 2 : α) * atan2F (sol 1) (sol 0 - sol 2)

/-- The conic evaluated at the derived center (line 2529), with `F = 1`. -/
def conicJ (sol : Fin 5 → α) : α :=
  sol 0 * conicCx sol * conicCx sol + sol 1 * conicCx sol * conicCy sol +
    sol 2 * conicCy sol * conicCy sol + sol 3 * conicCx sol + sol 4 * conicCy sol + 1

/-- Trace of `[[A, B/2], [B/2, C]]` (line 2530). -/
def conicTrace (sol : Fin 5 → α) : α := sol 0 + sol 2

/-- Determinant of `[[A, B/2], [B/2, C]]` (line 2531). -/
def conicDet2 (sol : Fin 5 → α) : α :=
  sol 0 * sol 2 - sol 1 / 2 * (sol 1 / 2)

/-- `sqrt(max(0, trace²/4 - det))` (line 2532). -/
def conicSqrtDisc (sqrtF : α → α) (sol : Fin 5 → α) : α :=
  sqrtF (max 0 (conicTrace sol * conicTrace sol / 4 - conicDet2 sol))

/-- Larger eigenvalue `trace/2 + sqrtDisc` (line 2533). -/
def conicLambda1 (sqrtF : α → α) (sol : Fin 5 → α) : α :=
  conicTrace sol / 2 + conicSqrtDisc sqrtF sol

/-- Smaller eigenvalue `trace/2 - sqrtDisc` (line 2534). -/
def conicLambda2 (sqrtF : α → α) (sol : Fin 5 → α) : α :=
  conicTrace sol / 2 - conicSqrtDisc sqrtF sol

/-- First semi-axis squared `-J/λ₁` (line 2536). -/
def conicA2 (sqrtF : α → α) (sol : Fin 5 → α) : α :=
  -conicJ sol / conicLambda1 sqrtF sol

/-- Second semi-axis squared `-J/λ₂` (line 2537). -/
def conicB2 (sqrtF : α → α) (sol : Fin 5 → α) : α :=
  -conicJ sol / conicLambda2 sqrtF sol

/-- `major = max(a, b)` with `a = sqrt(a2)`, `b = sqrt(b2)` (lines 2540-2542). -/
def conicMajor (sqrtF : α → α) (sol : Fin 5 → α) : α :=
  max (sqrtF (conicA2 sqrtF sol)) (sqrtF (conicB2 sqrtF sol))

/-- `minor = min(a, b)` (line 2543). -/
def conicMinor (sqrtF : α → α) (sol : Fin 5 → α) : α :=
  min (sqrtF (conicA2 sqrtF sol)) (sqrtF (conicB2 sqrtF sol))

/-- Final rotation: add 90° when the axes came out swapped (`b > a`,
lines 2546-2547). -/
def conicFinalRot (sqrtF : α → α) (atan2F : α → α → α) (piF : α) (sol : Fin 5 → α) : α :=
  if sqrtF (conicA2 sqrtF sol) < sqrtF (conicB2 sqrtF sol) then
    conicRot atan2F sol + piF / 2
  else conicRot atan2F sol

/-- The guarded extraction after a successful solve (lines 2516-2550):
`none` models each `return fitCircleAsEllipse(points)` rejection. -/
def extractEllipse (sqrtF : α → α) (atan2F : α → α → α) (piF : α) (W : α)
    (sol : Fin 5 → α) : Option (EllipseDesc α) :=
  if 0 ≤ conicDisc sol then none
  else if conicA2 sqrtF sol ≤ 0 ∨ conicB2 sqrtF sol ≤ 0 then none
  else if conicMajor sqrtF sol < 10 ∨ W < conicMajor sqrtF sol then none
  else some ⟨conicCx sol, conicCy sol, conicMajor sqrtF sol, conicMinor sqrtF sol,
    conicFinalRot sqrtF atan2F piF sol⟩

/-- `fitEllipseFull(points)` (lines 2451-2551): build the system, eliminate,
back-substitute, extract; every rejection falls back to the circle fit. -/
def fitEllipseFull (sqrtF : α → α) (atan2F : α → α → α) (piF : α) (W : α)
    (points : List (Pt α)) : Option (EllipseDesc α) :=
  match gaussElim (buildSys points) with
  | none => fitCircleAsEllipse sqrtF W points
  | some tri =>
    match extractEllipse sqrtF atan2F piF W (backSubst tri) with
    | none => fitCircleAsEllipse sqrtF W points
    | some d => some d

/-- `fitEllipse(points)` (lines 2404-2420): fewer than 3 points fail, 3-4
points use the circle fit, 5 or more the full conic fit. -/
def fitEllipse (sqrtF : α → α) (atan2F : α → α → α) (piF : α) (W : α)
    (points : List (Pt α)) : Option (EllipseDesc α) :=
  if points.length < 3 then none
  else if points.length ≤ 4 then fitCircleAsEllipse sqrtF W points
  else fitEllipseFull sqrtF atan2F piF W points

/-- The left-hand side of an augmented row's equation at a candidate solution:
`r₀x₀ + r₁x₁ + r₂x₂ + r₃x₃ + r₄x₄`. -/
def dotRow (x : Fin 5 → α) (r : Fin 6 → α) : α :=
  r 0 * x 0 + r 1 * x 1 + r 2 * x 2 + r 3 * x 3 + r 4 * x 4

/-- `x` satisfies the linear equation encoded by the augmented row `r`. -/
def satRow (x : Fin 5 → α) (r : Fin 6 → α) : Prop :=
  dotRow x r = r 5

/-- Shape of the settled rows after elimination: row `k` has zeros before
column `k` and a pivot of magnitude at least `1e-12` on the diagonal. -/
def TriShape (l : List (Fin 6 → α)) : Prop :=
  ∀ (k : ℕ) (hk : k < l.length) (hk6 : k < 6),
    (∀ j : Fin 6, (j : ℕ) < k → l.get ⟨k, hk⟩ j = 0) ∧
      eps12 ≤ |l.get ⟨k, hk⟩ ⟨k, hk6⟩|

end FitEngine

/-- `Math.atan2(y, x)`: the argument of the complex number `x + y·i`,
in `(-π, π]` with `atan2(0, 0) = 0`, matching `Complex.arg`. -/
noncomputable def atan2R (y x : ℝ) : ℝ :=
  Complex.arg (Complex.ofReal x + Complex.ofReal y * Complex.I)

/-! ## Circle-definition UI handlers (viewer.js annotate document)

Only the fields the fit flow touches are modelled: the collected click
points, the defining flag, the committed ellipse and the accepted flag.
Toasts, the zero-degree angle and the save call do not touch these. -/

/-- Circle-mode UI state around the click-to-fit flow. -/
structure CircleUI where
  definePoints : List (Pt ℝ)
  definingCircle : Bool
  circleEllipse : Option (EllipseDesc ℝ)
  circleAccepted : Bool

/-- The define-mode branch of `onPointerDown` (lines 2656-2678): push the
click; at 5 points auto-commit the fit — on success the ellipse is stored and
define mode ends (the point list is left as is), on failure the point list is
cleared. -/
noncomputable def defineClick (W : ℝ) (st : CircleUI) (click : Pt ℝ) : CircleUI :=
  if st.definingCircle = true ∧ st.definePoints.length < 5 then
    let pts := st.definePoints ++ [click]
    if 5 ≤ pts.length then
      match fitEllipse Real.sqrt atan2R Real.pi W pts with
      | some fit =>
        { st with
          circleEllipse := some fit
          circleAccepted := true
          definingCircle := false
          definePoints := pts }
      | none => { st with definePoints := [] }
    else { st with definePoints := pts }
  else st

/-- The accept-button handler (lines 2946-2968): with 3 or more collected
points, commit the fit — on success store the ellipse, end define mode and
clear the points; on failure return early leaving everything unchanged.
Otherwise accept the existing ellipse if there is one. -/
noncomputable def acceptClick (W : ℝ) (st : CircleUI) : CircleUI :=
  if 3 ≤ st.definePoints.length then
    match fitEllipse Real.sqrt atan2R Real.pi W st.definePoints with
    | some fit =>
      { st with
        circleEllipse := some fit
        definingCircle := false
        definePoints := []
        circleAccepted := true }
    | none => st
  else
    match st.circleEllipse with
    | none => st
    | some _ => { st with circleAccepted := true }

/-! ## The reference ellipse of the round-trip property

Center `(100, 100)`, semi-axes `(50, 30)`, rotation `0.3` rad. -/

/-- Parametric point of the reference ellipse at parameter `t`. -/
noncomputable def ellipsePoint (t : ℝ) : Pt ℝ :=
  ⟨100 + 50 * Real.cos t * Real.cos 0.3 - 30 * Real.sin t * Real.sin 0.3,
   100 + 50 * Real.cos t * Real.sin 0.3 + 30 * Real.sin t * Real.cos 0.3⟩

/-- A point sampled exactly on the reference ellipse. -/
def onEllipse (p : Pt ℝ) : Prop := ∃ t : ℝ, p = ellipsePoint t

/-- Centered quadratic coefficient `cos²θ/50² + sin²θ/30²` of the reference
ellipse (θ = 0.3). -/
noncomputable def coefA : ℝ := Real.cos 0.3 ^ 2 / 2500 + Real.sin 0.3 ^ 2 / 900

/-- Centered cross coefficient `2·cosθ·sinθ·(1/50² - 1/30²)`. -/
noncomputable def coefB : ℝ := 2 * Real.cos 0.3 * Real.sin 0.3 * (1 / 2500 - 1 / 900)

/-- Centered quadratic coefficient `sin²θ/50² + cos²θ/30²`. -/
noncomputable def coefC : ℝ := Real.sin 0.3 ^ 2 / 2500 + Real.cos 0.3 ^ 2 / 900

/-- Expanded linear-in-x coefficient of the reference conic. -/
noncomputable def coefD : ℝ := -(200 * coefA + 100 * coefB)

/-- Expanded linear-in-y coefficient of the reference conic. -/
noncomputable def coefE : ℝ := -(100 * coefB + 200 * coefC)

/-- Constant term of the expanded reference conic (before normalizing F to 1). -/
noncomputable def coefF : ℝ := 10000 * coefA + 10000 * coefB + 10000 * coefC - 1

/-- The reference conic normalized to `F = 1`: the unique exact solution of the
5-point system when the points lie on the reference ellipse. -/
noncomputable def trueConic : Fin 5 → ℝ :=
  ![coefA / coefF, coefB / coefF, coefC / coefF, coefD / coefF, coefE / coefF]

/-- Three points on one line: a nontrivial linear relation vanishing at all. -/
def collinear3 (p1 p2 p3 : Pt ℝ) : Prop :=
  ∃ a b c : ℝ, (a ≠ 0 ∨ b ≠ 0) ∧
    a * p1.x + b * p1.y + c = 0 ∧ a * p2.x + b * p2.y + c = 0 ∧ a * p3.x + b * p3.y + c = 0

/-- The rejection conditions of the full fit, as the specification words them:
a negligible pivot during elimination, a non-negative discriminant, a
non-positive semi-axis squared, or a major semi-axis below 10px or above the
canvas width. -/
noncomputable def fullFitRejects (W : ℝ) (points : List (Pt ℝ)) : Prop :=
  gaussElim (buildSys points) = none ∨
    ∃ tri, gaussElim (buildSys points) = some tri ∧
      (0 ≤ conicDisc (backSubst tri) ∨
        conicA2 Real.sqrt (backSubst tri) ≤ 0 ∨ conicB2 Real.sqrt (backSubst tri) ≤ 0 ∨
        conicMajor Real.sqrt (backSubst tri) < 10 ∨ W < conicMajor Real.sqrt (backSubst tri))

/-! ## Concrete data used by the witnesses -/

/-- A concrete keypoint buffer: cell `n` holds the value `n`. -/
def kpData : ℕ → ℚ := fun n => n

/-- A concrete valid tagging state: T0 at frame 5, release at frame 10. -/
def stGoodC3 : TagState :=
  { throwStart := some 5, release := some 10 }

/-- A concrete state with a T0, a turn boundary and a ball marker at frame 3. -/
def stBallC4 : TagState :=
  { throwStart := some 3, turnBoundaries := [3, 7], ballMarkers := [⟨3, 12, 34⟩, ⟨7, 1, 2⟩] }

/-- A concrete hammer-height series: rises to a peak at frame 25, dips at 40,
peaks again at 55, then falls. -/
def hvC5 : ℕ → ℚ := fun f =>
  if f ≤ 25 then (f : ℚ)
  else if f ≤ 40 then (50 : ℚ) - (f : ℚ)
  else if f ≤ 55 then (f : ℚ) - 30
  else (80 : ℚ) - (f : ℚ)

/-- A concrete hammer-position series, valid (non-NaN, nonzero) everywhere,
whose Y component is `hvC5`. -/
def hammerC5 : ℕ → Option (ℚ × ℚ × ℚ) := fun f => some (1, hvC5 f, 0)

/-- Circle-mode state with three collinear collected points (fit will fail). -/
noncomputable def stC9 : CircleUI :=
  ⟨[⟨0, 0⟩, ⟨1, 1⟩, ⟨2, 2⟩], true, none, false⟩

/-- Circle-mode state in define mode with four collected points. -/
noncomputable def stA9 : CircleUI :=
  ⟨[⟨0, 0⟩, ⟨1, 1⟩, ⟨2, 2⟩, ⟨3, 3⟩], true, none, false⟩

/-! # Theorems -/

/-! ## Helper lemmas: sorted ball-marker lists -/

/-- `sortBalls` permutes the list. -/
theorem sortBalls_perm (l : List BallMarker) : List.Perm (sortBalls l) l :=
  List.mergeSort_perm l _

/-- `sortBalls` sorts by frame (non-strictly). -/
theorem sortBalls_sorted (l : List BallMarker) :
    (sortBalls l).Pairwise (fun a b => a.frame ≤ b.frame) := by
  have h := @List.sorted_mergeSort BallMarker (fun a b => decide (a.frame ≤ b.frame))
    (fun a b c hab hbc => by
      have h1 : a.frame ≤ b.frame := by simpa using hab
      have h2 : b.frame ≤ c.frame := by simpa using hbc
      simpa using h1.trans h2)
    (fun a b => by simpa using Nat.le_total a.frame b.frame) l
  exact h.imp (fun hab => by simpa using hab)

/-- A strictly-sorted list has pairwise-distinct frames. -/
theorem framesNodup_of_ordered (l : List BallMarker) (h : ballsOrdered l) :
    (l.map BallMarker.frame).Nodup :=
  List.pairwise_map.mpr (h.imp fun hlt => Nat.ne_of_lt hlt)

/-- In a list with pairwise-distinct frames, any two members sharing a frame
are the same marker. -/
theorem frame_unique_of_nodup {l : List BallMarker} (h : (l.map BallMarker.frame).Nodup)
    {x y : BallMarker} (hx : x ∈ l) (hy : y ∈ l) (hxy : x.frame = y.frame) : x = y := by
  induction l with
  | nil => cases hx
  | cons a t ih =>
    rw [List.map_cons, List.nodup_cons] at h
    rcases List.mem_cons.mp hx with rfl | hx2
    · rcases List.mem_cons.mp hy with rfl | hy2
      · rfl
      · exact absurd (hxy ▸ List.mem_map_of_mem BallMarker.frame hy2) h.1
    · rcases List.mem_cons.mp hy with rfl | hy2
      · exact absurd (hxy ▸ List.mem_map_of_mem BallMarker.frame hx2) h.1
      · exact ih h.2 hx2 hy2

/-- Non-strict sortedness plus distinct frames gives strict sortedness. -/
theorem ordered_of_sorted_nodup {l : List BallMarker}
    (hs : l.Pairwise (fun a b => a.frame ≤ b.frame))
    (hn : (l.map BallMarker.frame).Nodup) : ballsOrdered l := by
  have hne : l.Pairwise (fun a b => a.frame ≠ b.frame) := List.pairwise_map.mp hn
  exact (hs.and hne).imp (fun hab => lt_of_le_of_ne hab.1 hab.2)

/-- Sorting a list with distinct frames yields a strictly-ordered list. -/
theorem sortBalls_ordered {l : List BallMarker} (hn : (l.map BallMarker.frame).Nodup) :
    ballsOrdered (sortBalls l) := by
  refine ordered_of_sorted_nodup (sortBalls_sorted l) ?_
  exact (((sortBalls_perm l).map BallMarker.frame).nodup_iff).mpr hn

/-- Two strictly-ordered permutations of each other are equal. -/
theorem ordered_eq_of_perm {l1 l2 : List BallMarker} (hp : List.Perm l1 l2)
    (h1 : ballsOrdered l1) (h2 : ballsOrdered l2) : l1 = l2 := by
  haveI : IsAntisymm BallMarker (fun a b => a.frame < b.frame) :=
    ⟨fun a b hab hba => absurd hba (by omega)⟩
  exact List.eq_of_perm_of_sorted hp h1 h2

/-- Unpacking a successful frame search. -/
theorem find?_ballPred_eq_some {l : List BallMarker} {f : ℕ} {m : BallMarker}
    (h : l.find? (ballPred f) = some m) : m ∈ l ∧ m.frame = f :=
  ⟨List.mem_of_find?_eq_some h, by have h2 := List.find?_some h; simpa [ballPred] using h2⟩

/-- A failed frame search means the erase is the identity. -/
theorem eraseP_ballPred_of_none {l : List BallMarker} {f : ℕ}
    (h : l.find? (ballPred f) = none) : l.eraseP (ballPred f) = l := by
  refine List.eraseP_of_forall_not (fun a ha => ?_)
  exact List.find?_eq_none.mp h a ha

/-- A failed frame search also means no member carries the frame. -/
theorem no_frame_of_find?_none {l : List BallMarker} {f : ℕ}
    (h : l.find? (ballPred f) = none) : ∀ x ∈ l, x.frame ≠ f := by
  intro x hx
  have h2 := List.find?_eq_none.mp h x hx
  simpa [ballPred] using h2

/-- Splicing the found marker: the list is a permutation of the marker consed
onto the spliced list, and (with distinct frames) the spliced list has no
marker left at the frame. -/
theorem find?_eraseP_ball {l : List BallMarker} {f : ℕ} {m : BallMarker}
    (hn : (l.map BallMarker.frame).Nodup)
    (hfind : l.find? (ballPred f) = some m) :
    List.Perm l (m :: l.eraseP (ballPred f)) ∧
      ∀ x ∈ l.eraseP (ballPred f), x.frame ≠ f := by
  induction l with
  | nil => simp at hfind
  | cons a t ih =>
    rw [List.map_cons, List.nodup_cons] at hn
    by_cases ha : a.frame = f
    · have hfa : ballPred f a = true := by simp [ballPred, ha]
      rw [List.find?_cons_of_pos t hfa] at hfind
      obtain rfl : a = m := by simpa using hfind
      rw [List.eraseP_cons_of_pos hfa]
      refine ⟨List.Perm.refl _, fun x hx hxf => ?_⟩
      exact hn.1 (List.mem_map.mpr ⟨x, hx, hxf.trans ha.symm⟩)
    · have hfa : ¬ballPred f a = true := by simp [ballPred, ha]
      rw [List.find?_cons_of_neg t hfa] at hfind
      rw [List.eraseP_cons_of_neg hfa]
      obtain ⟨hp, hne⟩ := ih hn.2 hfind
      constructor
      · exact (hp.cons a).trans (List.Perm.swap m a _)
      · intro x hx
        rcases List.mem_cons.mp hx with rfl | hx2
        · exact ha
        · exact hne x hx2

/-- With distinct frames, any member at the frame is what `find?` returns. -/
theorem find?_ballPred_unique {l : List BallMarker} {f : ℕ} {m : BallMarker}
    (hn : (l.map BallMarker.frame).Nodup) (hm : m ∈ l) (hmf : m.frame = f) :
    l.find? (ballPred f) = some m := by
  induction l with
  | nil => cases hm
  | cons a t ih =>
    rw [List.map_cons, List.nodup_cons] at hn
    by_cases ha : a.frame = f
    · have hfa : ballPred f a = true := by simp [ballPred, ha]
      rw [List.find?_cons_of_pos t hfa]
      rcases List.mem_cons.mp hm with rfl | hm2
      · rfl
      · exact absurd (ha ▸ hmf ▸ List.mem_map_of_mem BallMarker.frame hm2) hn.1
    · have hfa : ¬ballPred f a = true := by simp [ballPred, ha]
      rw [List.find?_cons_of_neg t hfa]
      rcases List.mem_cons.mp hm with rfl | hm2
      · exact absurd hmf ha
      · exact ih hn.2 hm2

/-- Splicing the marker found at a frame and appending any marker carrying
that frame keeps all frames pairwise distinct. -/
theorem erased_insert_nodup {l : List BallMarker} {f : ℕ} {m0 : BallMarker} {m : BallMarker}
    (hn : (l.map BallMarker.frame).Nodup) (hfind : l.find? (ballPred f) = some m0)
    (hmf : m.frame = f) :
    ((l.eraseP (ballPred f) ++ [m]).map BallMarker.frame).Nodup := by
  obtain ⟨hp, hne⟩ := find?_eraseP_ball hn hfind
  have hsub : List.Sublist ((l.eraseP (ballPred f)).map BallMarker.frame)
      (l.map BallMarker.frame) :=
    (List.eraseP_sublist l).map BallMarker.frame
  rw [List.map_append]
  refine List.Nodup.append (hsub.nodup hn) (by simp) ?_
  intro a ha hb
  rw [List.map_cons, List.map_nil, List.mem_singleton] at hb
  obtain ⟨x, hx, rfl⟩ := List.mem_map.mp ha
  exact hne x hx (hb.trans hmf)

/-- Re-inserting the found marker after the splice and re-sorting restores a
strictly-ordered list exactly. -/
theorem sortBalls_restore {l : List BallMarker} {f : ℕ} {m : BallMarker}
    (ho : ballsOrdered l) (hfind : l.find? (ballPred f) = some m) :
    sortBalls (l.eraseP (ballPred f) ++ [m]) = l := by
  have hn := framesNodup_of_ordered l ho
  obtain ⟨hp, hne⟩ := find?_eraseP_ball hn hfind
  obtain ⟨hm, hmf⟩ := find?_ballPred_eq_some hfind
  have hne2 := erased_insert_nodup hn hfind hmf
  have hperm : List.Perm (sortBalls (l.eraseP (ballPred f) ++ [m])) l :=
    ((sortBalls_perm _).trans (List.perm_append_singleton m _)).trans hp.symm
  exact ordered_eq_of_perm hperm (sortBalls_ordered hne2) ho

/-- Inserting a marker whose frame is fresh keeps the sorted result strictly
ordered. -/
theorem sortBalls_insert_fresh {l : List BallMarker} {m : BallMarker}
    (hn : (l.map BallMarker.frame).Nodup) (hf : ∀ x ∈ l, x.frame ≠ m.frame) :
    ballsOrdered (sortBalls (l ++ [m])) := by
  refine sortBalls_ordered ?_
  rw [List.map_append]
  refine List.Nodup.append hn (by simp) ?_
  intro a ha hb
  rw [List.map_cons, List.map_nil, List.mem_singleton] at hb
  obtain ⟨x, hx, rfl⟩ := List.mem_map.mp ha
  exact hf x hx hb

/-! ## C6: keypoint accessor and the coordinate-space flag -/

/-- Claim C6: for every frame `f` in `[0,T)` and joint index `i` in `[0,70)`,
`getKp(f, i)` returns the raw stored triple at flat offset `(f*70+i)*3` when
the session flag is world-space, and `(x, -y, -z)` of that triple when the
flag is camera-space. -/
theorem getKp_coordinate_space (data : ℕ → ℚ) (T f i : ℕ) (_hf : f < T) (_hi : i < 70) :
    getKp true data f i =
      (data ((f * 70 + i) * 3), data ((f * 70 + i) * 3 + 1), data ((f * 70 + i) * 3 + 2)) ∧
    getKp false data f i =
      (data ((f * 70 + i) * 3), -data ((f * 70 + i) * 3 + 1), -data ((f * 70 + i) * 3 + 2)) := by
  exact ⟨rfl, rfl⟩

/-- Witness for C6 at frame 0, joint 0, a 10-frame buffer holding `n` at cell
`n`. -/
theorem getKp_coordinate_space_witness :
    (0 : ℕ) < 10 ∧ (0 : ℕ) < 70 ∧
      getKp true kpData 0 0 = (0, 1, 2) ∧ getKp false kpData 0 0 = (0, -1, -2) := by
  have h := getKp_coordinate_space kpData 10 0 0 (by norm_num) (by norm_num)
  refine ⟨by norm_num, by norm_num, ?_, ?_⟩
  · rw [h.1]; norm_num [kpData]
  · rw [h.2]; norm_num [kpData]

/-! ## C8: scrubbing and the playing flag -/

/-- Counterexample to C8 as stated: in the 3D viewer variant the scrubber
input handler does not pause playback — scrubbing while playing leaves the
playing flag true. -/
theorem scrub_pause_counterexample :
    (viewerScrubInput 5 ⟨true, 0⟩).playing = true := rfl

/-- Claim C8 (amended): the annotate-app and tagger-app scrub handlers pause
playback before seeking (the playing flag is false afterwards regardless of
the prior state), but the 3D viewer's scrub handler leaves the playing flag
unchanged. -/
theorem scrub_pause_amended (T v : ℤ) (st : PlayState) :
    (annotateScrubInput T v st).playing = false ∧
    (taggerScrubInput T v st).playing = false ∧
    (viewerScrubInput v st).playing = st.playing := by
  refine ⟨?_, ?_, rfl⟩ <;>
    · simp only [annotateScrubInput, taggerScrubInput, seekToFrame]
      cases h : st.playing <;> simp [h]

/-! ## C3: the save contract -/

/-- Claim C3: `save()` fails (a non-ok result) whenever T0 is unset, release
is unset, or release is not strictly after T0, and then mutates no state at
all; when both are set with release strictly after T0 (and the persistence
write succeeds), it returns ok and clears only the dirty flag. -/
theorem save_contract (st : TagState) (storeOk : Bool) :
    ((st.throwStart = none ∨ st.release = none ∨
        (∃ t0 r, st.throwStart = some t0 ∧ st.release = some r ∧ r ≤ t0)) →
      ∃ e, e ≠ SaveResult.ok ∧ save storeOk st = (e, st)) ∧
    (∀ t0 r, st.throwStart = some t0 → st.release = some r → t0 < r → storeOk = true →
      save storeOk st = (SaveResult.ok, { st with dirty := false })) := by
  constructor
  · rintro (h | h | ⟨t0, r, h1, h2, h3⟩)
    · exact ⟨SaveResult.errNoT0, by simp, by simp [save, h]⟩
    · cases hts : st.throwStart with
      | none => exact ⟨SaveResult.errNoT0, by simp, by simp [save, hts]⟩
      | some t0 => exact ⟨SaveResult.errNoRelease, by simp, by simp [save, hts, h]⟩
    · refine ⟨SaveResult.errOutOfOrder, by simp, ?_⟩
      simp [save, h1, h2, h3]
  · intro t0 r h1 h2 h3 h4
    simp [save, h1, h2, h4, Nat.not_le.mpr h3]

/-- Witness for C3: the empty session state fails to save; a state with T0=5
and release=10 saves successfully, clearing only the dirty flag. -/
theorem save_contract_witness :
    (∃ e, e ≠ SaveResult.ok ∧ save true initTagState = (e, initTagState)) ∧
    save true stGoodC3 = (SaveResult.ok, { stGoodC3 with dirty := false }) :=
  ⟨(save_contract initTagState true).1 (Or.inl rfl),
   (save_contract stGoodC3 true).2 5 10 rfl rfl (by norm_num) rfl⟩

/-! ## C4: deleteAtFrame followed by a single undo -/

/-- A present tag makes the delete flag fire. -/
theorem delAny_of_anyTag {st : TagState} {f : ℕ} (hAny : anyTagAt f st) :
    delAny f st = true := by
  rcases hAny with h | h | h | h | h | h
  · simp [delAny, delTags, h]
  · simp [delAny, delTags, h]
  · simp [delAny, delTags, h]
  · simp [delAny, delTags, h]
  · simp [delAny, delTags, h]
  · simp only [getBallAt] at h
    simp [delAny, delTags, h]

/-- The mutating branch of `deleteAtFrame`, spelled out. -/
theorem deleteAtFrame_pos {st : TagState} {f : ℕ} (h : delAny f st = true) :
    deleteAtFrame f st =
      { st with
        throwStart := if st.throwStart = some f then none else st.throwStart,
        release := if st.release = some f then none else st.release,
        turnBoundaries := st.turnBoundaries.eraseP (fun b => decide (b = f)),
        ssBoundaries := st.ssBoundaries.eraseP (fun b => decide (b = f)),
        dsBoundaries := st.dsBoundaries.eraseP (fun b => decide (b = f)),
        ballMarkers := st.ballMarkers.eraseP (ballPred f),
        undoStack := TagAction.delete f (delTags f st) :: st.undoStack,
        dirty := true } := by
  unfold deleteAtFrame
  rw [if_pos h]

/-- The no-op branch of `deleteAtFrame`. -/
theorem deleteAtFrame_neg {st : TagState} {f : ℕ} (h : delAny f st = false) :
    deleteAtFrame f st = st := by
  unfold deleteAtFrame
  rw [if_neg (by simp [h])]

/-- Claim C4: when at least one tag is present at frame `f` (the ball-marker
list carrying its documented one-marker-per-frame invariant),
`deleteAtFrame(f)` followed by one `undo()` restores T0, release, the
membership of `f` in the turn, SS and DS boundary sets, and the ball marker
at `f` with its exact pixel coordinates. -/
theorem delete_undo_roundtrip (st : TagState) (f : ℕ)
    (hAny : anyTagAt f st)
    (hUniq : (st.ballMarkers.map BallMarker.frame).Nodup) :
    (undo (deleteAtFrame f st)).throwStart = st.throwStart ∧
    (undo (deleteAtFrame f st)).release = st.release ∧
    (f ∈ (undo (deleteAtFrame f st)).turnBoundaries ↔ f ∈ st.turnBoundaries) ∧
    (f ∈ (undo (deleteAtFrame f st)).ssBoundaries ↔ f ∈ st.ssBoundaries) ∧
    (f ∈ (undo (deleteAtFrame f st)).dsBoundaries ↔ f ∈ st.dsBoundaries) ∧
    getBallAt f (undo (deleteAtFrame f st)) = getBallAt f st := by
  rw [deleteAtFrame_pos (delAny_of_anyTag hAny)]
  simp only [undo]
  refine ⟨?_, ?_, ?_, ?_, ?_, ?_⟩
  · by_cases hT : st.throwStart = some f
    · simp [delTags, hT]
    · simp [delTags, hT]
  · by_cases hR : st.release = some f
    · simp [delTags, hR]
    · simp [delTags, hR]
  · by_cases hTu : f ∈ st.turnBoundaries
    · simp [delTags, hTu, sortNat]
    · have hc : st.turnBoundaries.contains f = false := by simp [hTu]
      simp only [delTags]
      simp only [hc]
      simp only [hTu, iff_false]
      rw [if_neg (by decide)]
      exact fun hmem => hTu ((List.eraseP_sublist _).subset hmem)
  · by_cases hSS : f ∈ st.ssBoundaries
    · simp [delTags, hSS, sortNat]
    · have hc : st.ssBoundaries.contains f = false := by simp [hSS]
      simp only [delTags]
      simp only [hc]
      simp only [hSS, iff_false]
      rw [if_neg (by decide)]
      exact fun hmem => hSS ((List.eraseP_sublist _).subset hmem)
  · by_cases hDS : f ∈ st.dsBoundaries
    · simp [delTags, hDS, sortNat]
    · have hc : st.dsBoundaries.contains f = false := by simp [hDS]
      simp only [delTags]
      simp only [hc]
      simp only [hDS, iff_false]
      rw [if_neg (by decide)]
      exact fun hmem => hDS ((List.eraseP_sublist _).subset hmem)
  · cases hB : st.ballMarkers.find? (ballPred f) with
    | none =>
      simp [getBallAt, delTags, hB, eraseP_ballPred_of_none hB]
    | some m =>
      obtain ⟨hm, hmf⟩ := find?_ballPred_eq_some hB
      have hn2 := erased_insert_nodup hUniq hB hmf
      have hn3 : ((sortBalls (st.ballMarkers.eraseP (ballPred f) ++ [m])).map
          BallMarker.frame).Nodup :=
        (((sortBalls_perm _).map BallMarker.frame).nodup_iff).mpr hn2
      have hmem : m ∈ sortBalls (st.ballMarkers.eraseP (ballPred f) ++ [m]) :=
        ((sortBalls_perm _).mem_iff).mpr (by simp)
      have hfind2 := find?_ballPred_unique hn3 hmem hmf
      simp only [getBallAt, delTags, hB]
      simpa [hB] using hfind2

/-- Witness for C4: a state with T0 and a turn boundary and a ball marker all
at frame 3; the delete-then-undo round trip restores them. -/
theorem delete_undo_roundtrip_witness :
    anyTagAt 3 stBallC4 ∧ ((stBallC4.ballMarkers.map BallMarker.frame).Nodup ∧
      getBallAt 3 (undo (deleteAtFrame 3 stBallC4)) = getBallAt 3 stBallC4) := by
  have h := delete_undo_roundtrip stBallC4 3 (Or.inl rfl) (by decide)
  exact ⟨Or.inl rfl, by decide, h.2.2.2.2.2⟩

/-! ## C10: the ball-marker list stays sorted with unique frames -/

/-- Splicing at a frame and appending a marker with that frame keeps frames
pairwise distinct, whether or not a marker was present. -/
theorem erased_insert_nodup2 {l : List BallMarker} {f : ℕ}
    (hn : (l.map BallMarker.frame).Nodup) {m : BallMarker} (hmf : m.frame = f) :
    ((l.eraseP (ballPred f) ++ [m]).map BallMarker.frame).Nodup := by
  cases hB : l.find? (ballPred f) with
  | none =>
    rw [eraseP_ballPred_of_none hB, List.map_append]
    refine List.Nodup.append hn (by simp) ?_
    intro a ha hb
    rw [List.map_cons, List.map_nil, List.mem_singleton] at hb
    obtain ⟨x2, hx2, rfl⟩ := List.mem_map.mp ha
    exact no_frame_of_find?_none hB x2 hx2 (hb.trans hmf)
  | some m0 => exact erased_insert_nodup hn hB hmf

/-- Undoing the `ball_add` pushed by `addBall` restores the ball list exactly
(on a strictly-ordered list). -/
theorem ballUndo_add_inverse {l : List BallMarker} (ho : ballsOrdered l) (f : ℕ) (x y : ℚ) :
    ballUndo (TagAction.ball_add f (l.find? (ballPred f)))
      (sortBalls (l.eraseP (ballPred f) ++ [⟨f, x, y⟩])) = l := by
  have hn := framesNodup_of_ordered l ho
  have hnod2 : ((l.eraseP (ballPred f) ++ [(⟨f, x, y⟩ : BallMarker)]).map
      BallMarker.frame).Nodup := erased_insert_nodup2 hn rfl
  have hnodB : ((sortBalls (l.eraseP (ballPred f) ++ [(⟨f, x, y⟩ : BallMarker)])).map
      BallMarker.frame).Nodup := (((sortBalls_perm _).map BallMarker.frame).nodup_iff).mpr hnod2
  have hmemB : (⟨f, x, y⟩ : BallMarker) ∈
      sortBalls (l.eraseP (ballPred f) ++ [(⟨f, x, y⟩ : BallMarker)]) :=
    ((sortBalls_perm _).mem_iff).mpr (by simp)
  have hfindB := find?_ballPred_unique hnodB hmemB rfl
  obtain ⟨hpB, hneB⟩ := find?_eraseP_ball hnodB hfindB
  have hp2 : List.Perm (sortBalls (l.eraseP (ballPred f) ++ [(⟨f, x, y⟩ : BallMarker)]))
      ((⟨f, x, y⟩ : BallMarker) :: l.eraseP (ballPred f)) :=
    (sortBalls_perm _).trans (List.perm_append_singleton _ _)
  have hpE := (hpB.symm.trans hp2).cons_inv
  have hoErased : ballsOrdered (l.eraseP (ballPred f)) :=
    List.Pairwise.sublist (List.eraseP_sublist _) ho
  have hoBe : ballsOrdered ((sortBalls (l.eraseP (ballPred f) ++
      [(⟨f, x, y⟩ : BallMarker)])).eraseP (ballPred f)) :=
    List.Pairwise.sublist (List.eraseP_sublist _) (sortBalls_ordered hnod2)
  have hEq := ordered_eq_of_perm hpE hoBe hoErased
  cases hB : l.find? (ballPred f) with
  | none =>
    simp only [ballUndo]
    rw [hEq, eraseP_ballPred_of_none hB]
  | some m =>
    simp only [ballUndo]
    rw [hEq, sortBalls_restore ho hB]

/-- `addBall` preserves the ball-marker invariant. -/
theorem tagInv_addBall (f : ℕ) (x y : ℚ) {st : TagState} (h : TagInv st) :
    TagInv (addBall f x y st) := by
  obtain ⟨ho, hs⟩ := h
  have hn := framesNodup_of_ordered _ ho
  refine ⟨?_, ?_, ?_⟩
  · exact sortBalls_ordered (erased_insert_nodup2 hn rfl)
  · intro m hm
    exact (find?_ballPred_eq_some hm).2
  · show StackOK st.undoStack
      (ballUndo (TagAction.ball_add f (st.ballMarkers.find? (ballPred f)))
        (sortBalls (st.ballMarkers.eraseP (ballPred f) ++ [⟨f, x, y⟩])))
    rw [ballUndo_add_inverse ho f x y]
    exact hs

/-- `deleteAtFrame` preserves the ball-marker invariant. -/
theorem tagInv_delete (f : ℕ) {st : TagState} (h : TagInv st) :
    TagInv (deleteAtFrame f st) := by
  obtain ⟨ho, hs⟩ := h
  have hn := framesNodup_of_ordered _ ho
  by_cases hflag : delAny f st = true
  · rw [deleteAtFrame_pos hflag]
    refine ⟨?_, ?_, ?_⟩
    · exact List.Pairwise.sublist (List.eraseP_sublist _) ho
    · intro m hm
      simp only [delTags] at hm
      refine ⟨(find?_ballPred_eq_some hm).2, ?_⟩
      exact (find?_eraseP_ball hn hm).2
    · show StackOK st.undoStack
        (ballUndo (TagAction.delete f (delTags f st)) (st.ballMarkers.eraseP (ballPred f)))
      cases hB : st.ballMarkers.find? (ballPred f) with
      | none =>
        simp only [ballUndo, delTags, hB]
        rw [eraseP_ballPred_of_none hB]
        exact hs
      | some m =>
        simp only [ballUndo, delTags, hB]
        rw [sortBalls_restore ho hB]
        exact hs
  · rw [deleteAtFrame_neg (by simpa using hflag)]
    exact ⟨ho, hs⟩

/-- `undo` computes the projected ball effect and pops the stack. -/
theorem undo_ballMarkers (st : TagState) (a : TagAction) (rest : List TagAction)
    (h : st.undoStack = a :: rest) :
    (undo st).ballMarkers = ballUndo a st.ballMarkers ∧ (undo st).undoStack = rest := by
  cases a <;> simp [undo, h, ballUndo]

/-- `undo` preserves the ball-marker invariant. -/
theorem tagInv_undo {st : TagState} (h : TagInv st) : TagInv (undo st) := by
  obtain ⟨ho, hs⟩ := h
  cases hstk : st.undoStack with
  | nil =>
    have : undo st = st := by simp [undo, hstk]
    rw [this]
    exact ⟨ho, hs⟩
  | cons a rest =>
    rw [hstk] at hs
    obtain ⟨hhead, htail⟩ := hs
    have hb := undo_ballMarkers st a rest hstk
    refine ⟨?_, ?_⟩
    · rw [hb.1]
      cases a with
      | ball_add f prev =>
        cases prev with
        | none =>
          simp only [ballUndo]
          exact List.Pairwise.sublist (List.eraseP_sublist _) ho
        | some m =>
          have hmf : m.frame = f := hhead m rfl
          simp only [ballUndo]
          exact sortBalls_ordered (erased_insert_nodup2 (framesNodup_of_ordered _ ho) hmf)
      | delete f tags =>
        cases hT : tags.ball with
        | none => simpa [ballUndo, hT] using ho
        | some m =>
          obtain ⟨hmf, hnof⟩ := hhead m hT
          simp only [ballUndo, hT]
          refine sortBalls_insert_fresh (framesNodup_of_ordered _ ho) ?_
          intro x2 hx2
          rw [hmf]
          exact hnof x2 hx2
      | throw_start prev => simpa [ballUndo] using ho
      | release prev => simpa [ballUndo] using ho
      | turn_add f2 => simpa [ballUndo] using ho
      | ss_add f2 => simpa [ballUndo] using ho
      | ds_add f2 => simpa [ballUndo] using ho
      | circle_zero prev => simpa [ballUndo] using ho
      | circle_ellipse prev => simpa [ballUndo] using ho
      | circle_zero_deg_angle prev => simpa [ballUndo] using ho
    · rw [hb.1, hb.2]
      exact htail

/-- Claim C10: after every sequence of `addBall`, `undo` and `deleteAtFrame`
starting from the empty state, the ball-marker list is sorted strictly
ascending by frame — in particular it holds at most one marker per frame. -/
theorem ballMarkers_sorted_unique (ops : List BallOp) :
    ballsOrdered (runBallOps initTagState ops).ballMarkers := by
  have key : ∀ (l : List BallOp) (st : TagState), TagInv st → TagInv (runBallOps st l) := by
    intro l
    induction l with
    | nil => exact fun st h => h
    | cons op t ih =>
      intro st h
      refine ih (applyBallOp st op) ?_
      cases op with
      | add f x y => exact tagInv_addBall f x y h
      | deleteAt f => exact tagInv_delete f h
      | undoOp => exact tagInv_undo h
  exact (key ops initTagState ⟨List.Pairwise.nil, trivial⟩).1

/-! ## C5: the orbit-extremes detector -/

/-- Membership in the inclusive frame range scanned by the loops. -/
theorem mem_scan_range {s e f : ℕ} (hse : s ≤ e) :
    f ∈ List.range' s (e + 1 - s) ↔ s ≤ f ∧ f ≤ e := by
  rw [List.mem_range']
  constructor
  · rintro ⟨i, hi, rfl⟩
    omega
  · rintro ⟨h1, h2⟩
    exact ⟨f - s, by omega, by omega⟩

/-- Invariant of the max-scan fold from a seeded accumulator: the result holds
the first-seen maximum. -/
theorem foldl_maxStep_some (hy : ℕ → Option ℚ) (hv : ℕ → ℚ) :
    ∀ L : List ℕ, (∀ f ∈ L, hy f = some (hv f)) → ∀ (m0 : ℕ) (v0 : ℚ),
      ∃ m v, L.foldl (maxStep hy) (some (m0, v0)) = some (m, v) ∧
        ((m = m0 ∧ v = v0) ∨ (m ∈ L ∧ v = hv m)) ∧ v0 ≤ v ∧ ∀ f ∈ L, hv f ≤ v := by
  intro L
  induction L with
  | nil =>
    intro hL m0 v0
    exact ⟨m0, v0, rfl, Or.inl ⟨rfl, rfl⟩, le_refl _, by simp⟩
  | cons a t ih =>
    intro hL m0 v0
    have ha : hy a = some (hv a) := hL a (List.mem_cons_self a t)
    have hLt : ∀ f ∈ t, hy f = some (hv f) := fun f hf => hL f (List.mem_cons_of_mem a hf)
    rw [List.foldl_cons]
    by_cases hlt : v0 < hv a
    · have hstep : maxStep hy (some (m0, v0)) a = some (a, hv a) := by
        simp [maxStep, ha, hlt]
      rw [hstep]
      obtain ⟨m, v, h1, h2, h3, h4⟩ := ih hLt a (hv a)
      refine ⟨m, v, h1, ?_, le_of_lt (lt_of_lt_of_le hlt h3), ?_⟩
      · rcases h2 with ⟨rfl, rfl⟩ | ⟨hm, hveq⟩
        · exact Or.inr ⟨List.mem_cons_self _ _, rfl⟩
        · exact Or.inr ⟨List.mem_cons_of_mem a hm, hveq⟩
      · intro f hf
        rcases List.mem_cons.mp hf with rfl | hf2
        · exact h3
        · exact h4 f hf2
    · have hstep : maxStep hy (some (m0, v0)) a = some (m0, v0) := by
        simp [maxStep, ha, hlt]
      rw [hstep]
      obtain ⟨m, v, h1, h2, h3, h4⟩ := ih hLt m0 v0
      refine ⟨m, v, h1, ?_, h3, ?_⟩
      · rcases h2 with hc | ⟨hm, hveq⟩
        · exact Or.inl hc
        · exact Or.inr ⟨List.mem_cons_of_mem a hm, hveq⟩
      · intro f hf
        rcases List.mem_cons.mp hf with rfl | hf2
        · exact le_trans (not_lt.mp hlt) h3
        · exact h4 f hf2

/-- The max-scan over a nonempty all-valid range returns a maximizing frame. -/
theorem foldl_maxStep_none (hy : ℕ → Option ℚ) (hv : ℕ → ℚ) (L : List ℕ)
    (hL : ∀ f ∈ L, hy f = some (hv f)) (hne : L ≠ []) :
    ∃ m, L.foldl (maxStep hy) none = some (m, hv m) ∧ m ∈ L ∧ ∀ f ∈ L, hv f ≤ hv m := by
  cases L with
  | nil => exact absurd rfl hne
  | cons a t =>
    have ha : hy a = some (hv a) := hL a (List.mem_cons_self a t)
    have hLt : ∀ f ∈ t, hy f = some (hv f) := fun f hf => hL f (List.mem_cons_of_mem a hf)
    rw [List.foldl_cons]
    have hstep : maxStep hy none a = some (a, hv a) := by simp [maxStep, ha]
    rw [hstep]
    obtain ⟨m, v, h1, h2, h3, h4⟩ := foldl_maxStep_some hy hv t hLt a (hv a)
    have hall : ∀ f ∈ a :: t, hv f ≤ v := by
      intro f hf
      rcases List.mem_cons.mp hf with rfl | hf2
      · exact h3
      · exact h4 f hf2
    rcases h2 with ⟨rfl, rfl⟩ | ⟨hm, rfl⟩
    · exact ⟨m, h1, List.mem_cons_self _ _, hall⟩
    · exact ⟨m, h1, List.mem_cons_of_mem a hm, hall⟩

/-- A strict unique maximum is what the max-scan returns. -/
theorem findMaxFrame_unique (hy : ℕ → Option ℚ) (hv : ℕ → ℚ) (s e x : ℕ)
    (hsx : s ≤ x) (hxe : x ≤ e)
    (hval : ∀ f, s ≤ f → f ≤ e → hy f = some (hv f))
    (huniq : ∀ f, s ≤ f → f ≤ e → f ≠ x → hv f < hv x) :
    findMaxFrame hy s e = some (x, hv x) := by
  have hse : s ≤ e := le_trans hsx hxe
  unfold findMaxFrame
  have hL : ∀ f ∈ List.range' s (e + 1 - s), hy f = some (hv f) := by
    intro f hf
    obtain ⟨h1, h2⟩ := (mem_scan_range hse).mp hf
    exact hval f h1 h2
  have hx : x ∈ List.range' s (e + 1 - s) := (mem_scan_range hse).mpr ⟨hsx, hxe⟩
  have hne : List.range' s (e + 1 - s) ≠ [] := by
    intro hc
    rw [hc] at hx
    cases hx
  obtain ⟨m, h1, h2, h3⟩ := foldl_maxStep_none hy hv _ hL hne
  by_cases hmx : m = x
  · rw [hmx] at h1
    exact h1
  · obtain ⟨hb1, hb2⟩ := (mem_scan_range hse).mp h2
    have hlt := huniq m hb1 hb2 hmx
    have hle := h3 x hx
    exact absurd (lt_of_le_of_lt hle hlt) (lt_irrefl _)

/-- Invariant of the min-scan fold from a seeded accumulator. -/
theorem foldl_minStep_some (hy : ℕ → Option ℚ) (hv : ℕ → ℚ) :
    ∀ L : List ℕ, (∀ f ∈ L, hy f = some (hv f)) → ∀ (m0 : ℕ) (v0 : ℚ),
      ∃ m v, L.foldl (minStep hy) (some (m0, v0)) = some (m, v) ∧
        ((m = m0 ∧ v = v0) ∨ (m ∈ L ∧ v = hv m)) := by
  intro L
  induction L with
  | nil =>
    intro hL m0 v0
    exact ⟨m0, v0, rfl, Or.inl ⟨rfl, rfl⟩⟩
  | cons a t ih =>
    intro hL m0 v0
    have ha : hy a = some (hv a) := hL a (List.mem_cons_self a t)
    have hLt : ∀ f ∈ t, hy f = some (hv f) := fun f hf => hL f (List.mem_cons_of_mem a hf)
    rw [List.foldl_cons]
    by_cases hlt : hv a < v0
    · have hstep : minStep hy (some (m0, v0)) a = some (a, hv a) := by
        simp [minStep, ha, hlt]
      rw [hstep]
      obtain ⟨m, v, h1, h2⟩ := ih hLt a (hv a)
      refine ⟨m, v, h1, ?_⟩
      rcases h2 with ⟨rfl, rfl⟩ | ⟨hm, hveq⟩
      · exact Or.inr ⟨List.mem_cons_self _ _, rfl⟩
      · exact Or.inr ⟨List.mem_cons_of_mem a hm, hveq⟩
    · have hstep : minStep hy (some (m0, v0)) a = some (m0, v0) := by
        simp [minStep, ha, hlt]
      rw [hstep]
      obtain ⟨m, v, h1, h2⟩ := ih hLt m0 v0
      refine ⟨m, v, h1, ?_⟩
      rcases h2 with hc | ⟨hm, hveq⟩
      · exact Or.inl hc
      · exact Or.inr ⟨List.mem_cons_of_mem a hm, hveq⟩

/-- The min-scan over a nonempty all-valid inclusive range returns some frame
of the range. -/
theorem findMinFrame_between (hy : ℕ → Option ℚ) (hv : ℕ → ℚ) (s e : ℕ) (hse : s ≤ e)
    (hval : ∀ f, s ≤ f → f ≤ e → hy f = some (hv f)) :
    ∃ m, findMinFrame hy s e = some (m, hv m) ∧ s ≤ m ∧ m ≤ e := by
  unfold findMinFrame
  have hL : ∀ f ∈ List.range' s (e + 1 - s), hy f = some (hv f) := by
    intro f hf
    obtain ⟨h1, h2⟩ := (mem_scan_range hse).mp hf
    exact hval f h1 h2
  have hs : s ∈ List.range' s (e + 1 - s) := (mem_scan_range hse).mpr ⟨le_refl s, hse⟩
  cases hR : List.range' s (e + 1 - s) with
  | nil => rw [hR] at hs; cases hs
  | cons a t =>
    rw [hR] at hL
    have ha : hy a = some (hv a) := hL a (List.mem_cons_self a t)
    have hLt : ∀ f ∈ t, hy f = some (hv f) := fun f hf => hL f (List.mem_cons_of_mem a hf)
    rw [List.foldl_cons]
    have hstep : minStep hy none a = some (a, hv a) := by simp [minStep, ha]
    rw [hstep]
    obtain ⟨m, v, h1, h2⟩ := foldl_minStep_some hy hv t hLt a (hv a)
    have hmem : m ∈ List.range' s (e + 1 - s) := by
      rw [hR]
      rcases h2 with ⟨rfl, _⟩ | ⟨hm, _⟩
      · exact List.mem_cons_self _ _
      · exact List.mem_cons_of_mem a hm
    obtain ⟨hb1, hb2⟩ := (mem_scan_range hse).mp hmem
    rcases h2 with ⟨rfl, rfl⟩ | ⟨_, rfl⟩
    · exact ⟨m, h1, hb1, hb2⟩
    · exact ⟨m, h1, hb1, hb2⟩

/-- Claim C5: with turn boundaries `[10, 40, 70]`, a release frame at or past
the last boundary, and a hammer-height series valid at every frame with a
unique maximum at frame 25 within `[10,40]` and at frame 55 within `[40,70]`,
the detector reports exactly the two highs (frames 25 and 55, segment span 30
each) followed by exactly three lows: one in the half-turn-lookback gap up to
25, one in `[25,55]`, and one in `[55, release]`. -/
theorem orbit_extremes_spec (isWS : Bool) (hammer : ℕ → Option (ℚ × ℚ × ℚ)) (hv : ℕ → ℚ)
    (rel : ℕ) (hrel : 70 ≤ rel)
    (hval : ∀ f, f ≤ rel → hammerYat isWS hammer f = some (hv f))
    (hmax1 : ∀ f, 10 ≤ f → f ≤ 40 → f ≠ 25 → hv f < hv 25)
    (hmax2 : ∀ f, 40 ≤ f → f ≤ 70 → f ≠ 55 → hv f < hv 55) :
    ∃ l1 l2 l3 : OrbitExtreme,
      precomputeOrbitExtremes isWS hammer [10, 40, 70] rel =
        [⟨25, hammerPosAt isWS hammer 25, ExtKind.high, 30⟩,
         ⟨55, hammerPosAt isWS hammer 55, ExtKind.high, 30⟩, l1, l2, l3] ∧
      l1.kind = ExtKind.low ∧ l1.frame ≤ 25 ∧
      l2.kind = ExtKind.low ∧ 25 ≤ l2.frame ∧ l2.frame ≤ 55 ∧
      l3.kind = ExtKind.low ∧ 55 ≤ l3.frame ∧ l3.frame ≤ rel := by
  have h1 : findMaxFrame (hammerYat isWS hammer) 10 40 = some (25, hv 25) :=
    findMaxFrame_unique _ hv 10 40 25 (by norm_num) (by norm_num)
      (fun f hf1 hf2 => hval f (by omega)) hmax1
  have h2 : findMaxFrame (hammerYat isWS hammer) 40 70 = some (55, hv 55) :=
    findMaxFrame_unique _ hv 40 70 55 (by norm_num) (by norm_num)
      (fun f hf1 hf2 => hval f (by omega)) hmax2
  obtain ⟨m1, hm1, hm1a, hm1b⟩ := findMinFrame_between (hammerYat isWS hammer) hv 0 25
    (by norm_num) (fun f hf1 hf2 => hval f (by omega))
  obtain ⟨m2, hm2, hm2a, hm2b⟩ := findMinFrame_between (hammerYat isWS hammer) hv 25 55
    (by norm_num) (fun f hf1 hf2 => hval f (by omega))
  obtain ⟨m3, hm3, hm3a, hm3b⟩ := findMinFrame_between (hammerYat isWS hammer) hv 55 rel
    (by omega) (fun f hf1 hf2 => hval f (by omega))
  refine ⟨⟨m1, hammerPosAt isWS hammer m1, ExtKind.low, 25⟩,
          ⟨m2, hammerPosAt isWS hammer m2, ExtKind.low, 30⟩,
          ⟨m3, hammerPosAt isWS hammer m3, ExtKind.low, (rel : ℤ) - 55⟩,
          ?_, rfl, hm1b, rfl, hm2a, hm2b, rfl, hm3a, hm3b⟩
  simp only [precomputeOrbitExtremes]
  rw [if_neg (by norm_num)]
  simp only [List.tail_cons, List.zip_cons_cons, List.zip_nil_right, List.filterMap_cons,
    List.filterMap_nil, h1, h2, hm1, hm2, hm3, Option.map_some', List.map_cons, List.map_nil,
    List.getD_cons_zero, List.getD_cons_succ, List.getLastD]
  norm_num
  simp only [List.filterMap_cons, List.filterMap_nil, hm1, hm2, hm3, Option.map_some']
  norm_num

/-- Witness for C5: the tent-shaped height series `hvC5` with release frame 80
satisfies all hypotheses, and the detector output takes the claimed form. -/
theorem orbit_extremes_spec_witness :
    (70 : ℕ) ≤ 80 ∧
    (∀ f, f ≤ 80 → hammerYat true hammerC5 f = some (hvC5 f)) ∧
    (∀ f, 10 ≤ f → f ≤ 40 → f ≠ 25 → hvC5 f < hvC5 25) ∧
    (∀ f, 40 ≤ f → f ≤ 70 → f ≠ 55 → hvC5 f < hvC5 55) ∧
    (∃ l1 l2 l3 : OrbitExtreme,
      precomputeOrbitExtremes true hammerC5 [10, 40, 70] 80 =
        [⟨25, hammerPosAt true hammerC5 25, ExtKind.high, 30⟩,
         ⟨55, hammerPosAt true hammerC5 55, ExtKind.high, 30⟩, l1, l2, l3] ∧
      l1.kind = ExtKind.low ∧ l1.frame ≤ 25 ∧
      l2.kind = ExtKind.low ∧ 25 ≤ l2.frame ∧ l2.frame ≤ 55 ∧
      l3.kind = ExtKind.low ∧ 55 ≤ l3.frame ∧ l3.frame ≤ 80) := by
  have hval : ∀ f, f ≤ 80 → hammerYat true hammerC5 f = some (hvC5 f) := by
    intro f _
    simp [hammerYat, hammerC5, camToThree]
  have hmax1 : ∀ f, 10 ≤ f → f ≤ 40 → f ≠ 25 → hvC5 f < hvC5 25 := by
    intro f h1 h2 h3
    have h25 : hvC5 25 = 25 := by norm_num [hvC5]
    rw [h25]
    unfold hvC5
    by_cases hc : f ≤ 25
    · rw [if_pos hc]
      exact_mod_cast (by omega : f < 25)
    · rw [if_neg hc, if_pos h2]
      have hgt : (25 : ℚ) < (f : ℚ) := by exact_mod_cast (by omega : 25 < f)
      linarith
  have hmax2 : ∀ f, 40 ≤ f → f ≤ 70 → f ≠ 55 → hvC5 f < hvC5 55 := by
    intro f h1 h2 h3
    have h55 : hvC5 55 = 25 := by norm_num [hvC5]
    rw [h55]
    unfold hvC5
    by_cases hc1 : f ≤ 25
    · exact absurd hc1 (by omega)
    · rw [if_neg hc1]
      by_cases hc2 : f ≤ 40
      · rw [if_pos hc2]
        have hgt : (25 : ℚ) < (f : ℚ) := by exact_mod_cast (by omega : 25 < f)
        linarith
      · rw [if_neg hc2]
        by_cases hc3 : f ≤ 55
        · rw [if_pos hc3]
          have hlt : (f : ℚ) < 55 := by exact_mod_cast (by omega : f < 55)
          linarith
        · rw [if_neg hc3]
          have hgt : (55 : ℚ) < (f : ℚ) := by exact_mod_cast (by omega : 55 < f)
          linarith
  exact ⟨by norm_num, hval, hmax1, hmax2,
    orbit_extremes_spec true hammerC5 hvC5 80 (by norm_num) hval hmax1 hmax2⟩

/-! ## C7: three collinear points -/

/-- A quantity that is exactly zero is below the determinant threshold. -/
theorem abs_lt_eps10_of_eq_zero {X : ℝ} (hX : X = 0) : |X| < eps10 := by
  rw [hX, abs_zero, eps10]
  norm_num

/-- Claim C7: for exactly 3 collinear points, the circle fit reached through
`fitEllipse` returns `none`: the determinant guard `|AC - B²| < 1e-10` fires
before any division, so no divide-by-zero result is produced. -/
theorem collinear_fit_none (p1 p2 p3 : Pt ℝ) (h : collinear3 p1 p2 p3) (W : ℝ) :
    fitEllipse Real.sqrt atan2R Real.pi W [p1, p2, p3] = none := by
  obtain ⟨a, b, c, hab, h1, h2, h3⟩ := h
  have hroute : fitEllipse Real.sqrt atan2R Real.pi W [p1, p2, p3] =
      fitCircleAsEllipse Real.sqrt W [p1, p2, p3] := by
    unfold fitEllipse
    norm_num
  rw [hroute]
  simp only [fitCircleAsEllipse, List.foldl_cons, List.foldl_nil, List.length_cons,
    List.length_nil]
  rw [if_pos ?hc]
  case hc =>
    apply abs_lt_eps10_of_eq_zero
    rcases hab with ha | hb
    · have hx1 : p1.x = (-(b * p1.y) - c) / a := by
        rw [eq_div_iff ha]
        linear_combination h1
      have hx2 : p2.x = (-(b * p2.y) - c) / a := by
        rw [eq_div_iff ha]
        linear_combination h2
      have hx3 : p3.x = (-(b * p3.y) - c) / a := by
        rw [eq_div_iff ha]
        linear_combination h3
      rw [hx1, hx2, hx3]
      field_simp
      ring
    · have hy1 : p1.y = (-(a * p1.x) - c) / b := by
        rw [eq_div_iff hb]
        linear_combination h1
      have hy2 : p2.y = (-(a * p2.x) - c) / b := by
        rw [eq_div_iff hb]
        linear_combination h2
      have hy3 : p3.y = (-(a * p3.x) - c) / b := by
        rw [eq_div_iff hb]
        linear_combination h3
      rw [hy1, hy2, hy3]
      field_simp
      ring

/-- Witness for C7: the collinear points (0,0), (1,1), (2,2). -/
theorem collinear_fit_none_witness :
    collinear3 ⟨0, 0⟩ ⟨1, 1⟩ ⟨2, 2⟩ ∧
      fitEllipse Real.sqrt atan2R Real.pi 1000 [⟨0, 0⟩, ⟨1, 1⟩, ⟨2, 2⟩] = none := by
  have hcol : collinear3 (⟨0, 0⟩ : Pt ℝ) ⟨1, 1⟩ ⟨2, 2⟩ :=
    ⟨1, -1, 0, Or.inl one_ne_zero, by norm_num, by norm_num, by norm_num⟩
  exact ⟨hcol, collinear_fit_none _ _ _ hcol 1000⟩

/-! ## C2: the full-fit rejection conditions -/

/-- Claim C2: for 5 or more points, `fitEllipseFull` falls back to the circle
fit exactly when a pivot is negligible, the discriminant is non-negative, a
derived semi-axis squared is non-positive, or the derived major semi-axis is
below 10px or above the canvas width; otherwise it returns the ellipse
extracted from the solved conic. -/
theorem fitEllipseFull_reject_cases (points : List (Pt ℝ)) (W : ℝ)
    (_h5 : 5 ≤ points.length) :
    (fullFitRejects W points →
      fitEllipseFull Real.sqrt atan2R Real.pi W points =
        fitCircleAsEllipse Real.sqrt W points) ∧
    (¬fullFitRejects W points →
      ∃ tri, gaussElim (buildSys points) = some tri ∧
        fitEllipseFull Real.sqrt atan2R Real.pi W points =
          some ⟨conicCx (backSubst tri), conicCy (backSubst tri),
            conicMajor Real.sqrt (backSubst tri), conicMinor Real.sqrt (backSubst tri),
            conicFinalRot Real.sqrt atan2R Real.pi (backSubst tri)⟩) := by
  constructor
  · intro hrej
    cases hg : gaussElim (buildSys points) with
    | none => simp only [fitEllipseFull, hg]
    | some tri =>
      rcases hrej with hnone | ⟨tri2, hg2, hconds⟩
      · rw [hg] at hnone
        cases hnone
      · rw [hg] at hg2
        injection hg2 with htr
        rw [← htr] at hconds
        have hex : extractEllipse Real.sqrt atan2R Real.pi W (backSubst tri) = none := by
          unfold extractEllipse
          split_ifs with hc1 hc2 hc3
          · rfl
          · rfl
          · rfl
          · rcases hconds with h | h | h | h | h
            · exact absurd h hc1
            · exact absurd (Or.inl h) hc2
            · exact absurd (Or.inr h) hc2
            · exact absurd (Or.inl h) hc3
            · exact absurd (Or.inr h) hc3
        simp only [fitEllipseFull, hg, hex]
  · intro hrej
    have hg : ∃ tri, gaussElim (buildSys points) = some tri := by
      cases hg : gaussElim (buildSys points) with
      | none => exact absurd (Or.inl hg) hrej
      | some tri => exact ⟨tri, rfl⟩
    obtain ⟨tri, hg⟩ := hg
    refine ⟨tri, hg, ?_⟩
    have hex : extractEllipse Real.sqrt atan2R Real.pi W (backSubst tri) =
        some ⟨conicCx (backSubst tri), conicCy (backSubst tri),
          conicMajor Real.sqrt (backSubst tri), conicMinor Real.sqrt (backSubst tri),
          conicFinalRot Real.sqrt atan2R Real.pi (backSubst tri)⟩ := by
      unfold extractEllipse
      split_ifs with hc1 hc2 hc3
      · exact absurd (Or.inr ⟨tri, hg, Or.inl hc1⟩) hrej
      · rcases hc2 with h | h
        · exact absurd (Or.inr ⟨tri, hg, Or.inr (Or.inl h)⟩) hrej
        · exact absurd (Or.inr ⟨tri, hg, Or.inr (Or.inr (Or.inl h))⟩) hrej
      · rcases hc3 with h | h
        · exact absurd (Or.inr ⟨tri, hg, Or.inr (Or.inr (Or.inr (Or.inl h)))⟩) hrej
        · exact absurd (Or.inr ⟨tri, hg, Or.inr (Or.inr (Or.inr (Or.inr h)))⟩) hrej
      · rfl
    simp only [fitEllipseFull, hg, hex]

/-- Witness for C2 at five copies of the origin (a degenerate but length-5
input). -/
theorem fitEllipseFull_reject_cases_witness :
    5 ≤ (List.replicate 5 (⟨0, 0⟩ : Pt ℝ)).length ∧
    ((fullFitRejects 1000 (List.replicate 5 (⟨0, 0⟩ : Pt ℝ)) →
      fitEllipseFull Real.sqrt atan2R Real.pi 1000 (List.replicate 5 (⟨0, 0⟩ : Pt ℝ)) =
        fitCircleAsEllipse Real.sqrt 1000 (List.replicate 5 (⟨0, 0⟩ : Pt ℝ))) ∧
    (¬fullFitRejects 1000 (List.replicate 5 (⟨0, 0⟩ : Pt ℝ)) →
      ∃ tri, gaussElim (buildSys (List.replicate 5 (⟨0, 0⟩ : Pt ℝ))) = some tri ∧
        fitEllipseFull Real.sqrt atan2R Real.pi 1000 (List.replicate 5 (⟨0, 0⟩ : Pt ℝ)) =
          some ⟨conicCx (backSubst tri), conicCy (backSubst tri),
            conicMajor Real.sqrt (backSubst tri), conicMinor Real.sqrt (backSubst tri),
            conicFinalRot Real.sqrt atan2R Real.pi (backSubst tri)⟩)) :=
  ⟨by simp, fitEllipseFull_reject_cases (List.replicate 5 ⟨0, 0⟩) 1000 (by simp)⟩

/-! ## C9: clearing of the collected click points -/

/-- Concrete evaluation: the circle fit on the collinear points (0,0), (1,1),
(2,2) fails (zero determinant). -/
theorem fit3_collinear_concrete :
    fitEllipse Real.sqrt atan2R Real.pi 1000 [(⟨0, 0⟩ : Pt ℝ), ⟨1, 1⟩, ⟨2, 2⟩] = none := by
  simp only [fitEllipse, List.length_cons, List.length_nil]
  norm_num
  simp only [fitCircleAsEllipse, List.foldl_cons, List.foldl_nil, List.length_cons,
    List.length_nil]
  norm_num [eps10]

/-- Counterexample to C9 as stated: the accept-button fit attempt on three
collinear collected points fails and returns early, leaving `definePoints`
nonempty — the list is not cleared after this failed fit attempt. -/
theorem definePoints_retained_counterexample :
    3 ≤ stC9.definePoints.length ∧ (acceptClick 1000 stC9).definePoints ≠ [] := by
  constructor
  · norm_num [stC9]
  · unfold acceptClick
    rw [if_pos (by norm_num [stC9])]
    simp only [stC9, fit3_collinear_concrete]
    simp

/-- Claim C9 (amended): `definePoints` is cleared exactly on the failure
branch of the fifth-click auto-commit and on the success branch of the
accept-button commit; it is retained (all five points) on the auto-commit
success branch and left unchanged on the accept-button failure branch. -/
theorem definePoints_clearing_amended (W : ℝ) (st : CircleUI) (click : Pt ℝ)
    (hdef : st.definingCircle = true) (h4 : st.definePoints.length = 4) :
    (fitEllipse Real.sqrt atan2R Real.pi W (st.definePoints ++ [click]) = none →
      (defineClick W st click).definePoints = []) ∧
    (∀ d, fitEllipse Real.sqrt atan2R Real.pi W (st.definePoints ++ [click]) = some d →
      (defineClick W st click).definePoints = st.definePoints ++ [click]) ∧
    (∀ st2 : CircleUI, 3 ≤ st2.definePoints.length →
      (fitEllipse Real.sqrt atan2R Real.pi W st2.definePoints = none →
        (acceptClick W st2).definePoints = st2.definePoints) ∧
      (∀ d, fitEllipse Real.sqrt atan2R Real.pi W st2.definePoints = some d →
        (acceptClick W st2).definePoints = [])) := by
  refine ⟨?_, ?_, ?_⟩
  · intro hfit
    unfold defineClick
    rw [if_pos ⟨hdef, by omega⟩]
    rw [if_pos (by simp [h4])]
    simp only [hfit]
  · intro d hfit
    unfold defineClick
    rw [if_pos ⟨hdef, by omega⟩]
    rw [if_pos (by simp [h4])]
    simp only [hfit]
  · intro st2 h3
    constructor
    · intro hfit
      unfold acceptClick
      rw [if_pos h3]
      simp only [hfit]
    · intro d hfit
      unfold acceptClick
      rw [if_pos h3]
      simp only [hfit]

/-- Witness for C9 (amended) at a concrete 4-point define-mode state. -/
theorem definePoints_clearing_amended_witness :
    stA9.definingCircle = true ∧ stA9.definePoints.length = 4 ∧
    ((fitEllipse Real.sqrt atan2R Real.pi 1000 (stA9.definePoints ++ [⟨4, 4⟩]) = none →
      (defineClick 1000 stA9 ⟨4, 4⟩).definePoints = []) ∧
    (∀ d, fitEllipse Real.sqrt atan2R Real.pi 1000 (stA9.definePoints ++ [⟨4, 4⟩]) = some d →
      (defineClick 1000 stA9 ⟨4, 4⟩).definePoints = stA9.definePoints ++ [⟨4, 4⟩]) ∧
    (∀ st2 : CircleUI, 3 ≤ st2.definePoints.length →
      (fitEllipse Real.sqrt atan2R Real.pi 1000 st2.definePoints = none →
        (acceptClick 1000 st2).definePoints = st2.definePoints) ∧
      (∀ d, fitEllipse Real.sqrt atan2R Real.pi 1000 st2.definePoints = some d →
        (acceptClick 1000 st2).definePoints = []))) :=
  ⟨rfl, by norm_num [stA9],
   definePoints_clearing_amended 1000 stA9 ⟨4, 4⟩ rfl (by norm_num [stA9])⟩


/-! ## C1: exact round-trip of the reference-ellipse fit

The elimination is proved correct symbolically: a successful `gaussElim`
preserves the solution set and yields a triangular shape with pivots of
magnitude at least `1e-12`, so `backSubst` returns the unique exact solution
`trueConic`; the extraction of center, axes and rotation from `trueConic` is
evaluated in closed form.  The claim as stated is nevertheless false: five
coincident samples make the column-1 pivot vanish and no descriptor is
returned at all. -/

section C1Elim

variable {α : Type} [LinearOrderedField α]

theorem eps12_pos : (0 : α) < eps12 := by norm_num [eps12]

theorem argmaxAbsAux_lt (col : Fin 6) (rest : List (Fin 6 → α)) (i best : ℕ) (bv : α)
    (hb : best < i) : argmaxAbsAux col rest i best bv < i + rest.length := by
  induction rest generalizing i best bv with
  | nil => simpa [argmaxAbsAux] using hb
  | cons r t ih =>
    simp only [argmaxAbsAux, List.length_cons]
    by_cases h : bv < |r col|
    · rw [if_pos h]
      have h2 := ih (i + 1) i (abs (r col)) (Nat.lt_succ_self i)
      omega
    · rw [if_neg h]
      have h2 := ih (i + 1) best bv (Nat.lt_succ_of_lt hb)
      omega

theorem pivotIdx_lt (col : Fin 6) (l : List (Fin 6 → α)) (hl : l ≠ []) :
    pivotIdx col l < l.length := by
  cases l with
  | nil => exact absurd rfl hl
  | cons r rest =>
    simp only [pivotIdx, List.length_cons]
    have h2 := argmaxAbsAux_lt col rest 1 0 (abs (r col)) Nat.one_pos
    omega

theorem length_swapFront (l : List (Fin 6 → α)) (i : ℕ) :
    (swapFront l i).length = l.length := by
  simp [swapFront]

theorem mem_swapFront (l : List (Fin 6 → α)) (i : ℕ) (hi : i < l.length)
    (r : Fin 6 → α) (hr : r ∈ swapFront l i) : r ∈ l := by
  have h0 : 0 < l.length := Nat.lt_of_le_of_lt (Nat.zero_le i) hi
  unfold swapFront at hr
  rcases List.mem_or_eq_of_mem_set hr with hr2 | hr2
  · rcases List.mem_or_eq_of_mem_set hr2 with hr3 | hr3
    · exact hr3
    · rw [hr3, List.getD_eq_getElem l _ hi]
      exact List.getElem_mem hi
  · rw [hr2, List.getD_eq_getElem l _ h0]
    exact List.getElem_mem h0

theorem reduceRow_eq_sub (col : Fin 6) (p r : Fin 6 → α)
    (hp : ∀ j : Fin 6, (j : ℕ) < (col : ℕ) → p j = 0) (j : Fin 6) :
    reduceRow col p r j = r j - r col / p col * p j := by
  unfold reduceRow
  by_cases h : col ≤ j
  · rw [if_pos h]
  · rw [if_neg h]
    rw [hp j (Fin.lt_def.mp (lt_of_not_le h))]
    ring

theorem satRow_reduceRow (col : Fin 6) (p r : Fin 6 → α) (x : Fin 5 → α)
    (hp : ∀ j : Fin 6, (j : ℕ) < (col : ℕ) → p j = 0)
    (hsp : satRow x p) (hsr : satRow x r) :
    satRow x (reduceRow col p r) := by
  unfold satRow dotRow at hsp hsr ⊢
  simp only [reduceRow_eq_sub col p r hp]
  linear_combination hsr - r col / p col * hsp

theorem reduceRow_zeros (col : Fin 6) (p r : Fin 6 → α)
    (hpc : p col ≠ 0)
    (hr : ∀ j : Fin 6, (j : ℕ) < (col : ℕ) → r j = 0)
    (j : Fin 6) (hj : (j : ℕ) < (col : ℕ) + 1) :
    reduceRow col p r j = 0 := by
  unfold reduceRow
  by_cases h : col ≤ j
  · rw [if_pos h]
    have hjc : j = col := Fin.ext (Nat.le_antisymm (by omega) (Fin.le_def.mp h))
    rw [hjc, div_mul_cancel₀ _ hpc, sub_self]
  · rw [if_neg h]
    exact hr j (Fin.lt_def.mp (lt_of_not_le h))

end C1Elim


section C1ElimSpec

variable {α : Type} [LinearOrderedField α]

theorem elimAux_succ_cons (fuel : ℕ) (settled : List (Fin 6 → α)) (r : Fin 6 → α)
    (rest : List (Fin 6 → α)) :
    elimAux (fuel + 1) settled (r :: rest) =
      if h6 : settled.length < 6 then
        match swapFront (r :: rest) (pivotIdx ⟨settled.length, h6⟩ (r :: rest)) with
        | [] => none
        | p :: rest2 =>
          if |p ⟨settled.length, h6⟩| < eps12 then none
          else elimAux fuel (settled ++ [p])
            (rest2.map (reduceRow ⟨settled.length, h6⟩ p))
      else none := rfl

theorem elimAux_spec (x : Fin 5 → α) (fuel : ℕ) :
    ∀ settled todo out : List (Fin 6 → α),
      (∀ r ∈ settled, satRow x r) →
      (∀ r ∈ todo, satRow x r) →
      (∀ r ∈ todo, ∀ j : Fin 6, (j : ℕ) < settled.length → r j = 0) →
      TriShape settled →
      elimAux fuel settled todo = some out →
      (∀ r ∈ out, satRow x r) ∧ TriShape out ∧
        out.length = settled.length + todo.length := by
  induction fuel with
  | zero =>
    intro settled todo out hsat htodo hz htri h
    cases todo with
    | nil =>
      simp only [elimAux, Option.some.injEq] at h
      subst h
      exact ⟨hsat, htri, by simp⟩
    | cons r rest =>
      simp only [elimAux] at h
      exact absurd h (by simp)
  | succ fuel ih =>
    intro settled todo out hsat htodo hz htri h
    cases todo with
    | nil =>
      simp only [elimAux, Option.some.injEq] at h
      subst h
      exact ⟨hsat, htri, by simp⟩
    | cons r rest =>
      rw [elimAux_succ_cons] at h
      by_cases h6 : settled.length < 6
      · rw [dif_pos h6] at h
        rcases hsw : swapFront (r :: rest)
            (pivotIdx ⟨settled.length, h6⟩ (r :: rest)) with _ | ⟨p, rest2⟩
        · rw [hsw] at h
          exact absurd h (by simp)
        · simp only [hsw] at h
          by_cases hpiv : |p ⟨settled.length, h6⟩| < eps12
          · rw [if_pos hpiv] at h
            exact absurd h (by simp)
          · rw [if_neg hpiv] at h
            have hlen : rest.length = rest2.length := by
              have h2 := length_swapFront (r :: rest)
                (pivotIdx ⟨settled.length, h6⟩ (r :: rest))
              rw [hsw] at h2
              simpa using h2.symm
            have hpl : pivotIdx (⟨settled.length, h6⟩ : Fin 6) (r :: rest) <
                (r :: rest).length :=
              pivotIdx_lt _ (r :: rest) (by simp)
            have hmem : ∀ q ∈ p :: rest2, q ∈ r :: rest := by
              intro q hq
              exact mem_swapFront (r :: rest) _ hpl q (hsw ▸ hq)
            have hpmem : p ∈ r :: rest := hmem p (List.mem_cons_self p rest2)
            have hpzero : ∀ j : Fin 6, (j : ℕ) < settled.length → p j = 0 :=
              fun j hj => hz p hpmem j hj
            have hpcol : p ⟨settled.length, h6⟩ ≠ 0 :=
              abs_pos.mp (lt_of_lt_of_le eps12_pos (le_of_not_lt hpiv))
            have hsat2 : ∀ q ∈ settled ++ [p], satRow x q := by
              intro q hq
              rcases List.mem_append.mp hq with hq2 | hq2
              · exact hsat q hq2
              · rw [List.mem_singleton.mp hq2]
                exact htodo p hpmem
            have htodo2 : ∀ q ∈ rest2.map (reduceRow ⟨settled.length, h6⟩ p),
                satRow x q := by
              intro q hq
              rcases List.mem_map.mp hq with ⟨q0, hq0, rfl⟩
              exact satRow_reduceRow _ p q0 x hpzero (htodo p hpmem)
                (htodo q0 (hmem q0 (List.mem_cons_of_mem p hq0)))
            have hz2 : ∀ q ∈ rest2.map (reduceRow ⟨settled.length, h6⟩ p),
                ∀ j : Fin 6, (j : ℕ) < (settled ++ [p]).length → q j = 0 := by
              intro q hq j hj
              rcases List.mem_map.mp hq with ⟨q0, hq0, rfl⟩
              have hj2 : (j : ℕ) < settled.length + 1 := by
                simpa using hj
              exact reduceRow_zeros _ p q0 hpcol
                (fun j2 hj3 => hz q0 (hmem q0 (List.mem_cons_of_mem p hq0)) j2 hj3)
                j hj2
            have htri2 : TriShape (settled ++ [p]) := by
              intro k hk hk6
              rcases Nat.lt_or_ge k settled.length with hk2 | hk2
              · have hget : (settled ++ [p]).get ⟨k, hk⟩ = settled.get ⟨k, hk2⟩ := by
                  rw [List.get_eq_getElem, List.get_eq_getElem]
                  exact List.getElem_append_left hk2
                rw [hget]
                exact htri k hk2 hk6
              · have hkeq : k = settled.length := by
                  have h3 : k < settled.length + 1 := by simpa using hk
                  omega
                subst hkeq
                have hget : (settled ++ [p]).get ⟨settled.length, hk⟩ = p := by
                  rw [List.get_eq_getElem]
                  simp
                rw [hget]
                refine ⟨fun j hj => hpzero j hj, ?_⟩
                have hcol : (⟨settled.length, hk6⟩ : Fin 6) =
                    ⟨settled.length, h6⟩ := rfl
                rw [hcol]
                exact le_of_not_lt hpiv
            have hres := ih (settled ++ [p])
              (rest2.map (reduceRow ⟨settled.length, h6⟩ p)) out
              hsat2 htodo2 hz2 htri2 h
            refine ⟨hres.1, hres.2.1, ?_⟩
            have h4 := hres.2.2
            rw [h4]
            simp only [List.length_append, List.length_map, List.length_cons,
              List.length_nil]
            omega
      · rw [dif_neg h6] at h
        exact absurd h (by simp)

theorem gaussElim_spec (x : Fin 5 → α) (rows out : List (Fin 6 → α))
    (hs : ∀ r ∈ rows, satRow x r)
    (h : gaussElim rows = some out) :
    (∀ r ∈ out, satRow x r) ∧ TriShape out ∧ out.length = rows.length := by
  have h2 := elimAux_spec x rows.length [] rows out (by simp) hs
    (by intro r hr j hj; simp at hj) (by intro k hk hk6; simp at hk) h
  simpa using h2

end C1ElimSpec


section C1Back

variable {α : Type} [LinearOrderedField α]

theorem backSubst_eq_of_sat (x : Fin 5 → α) (tri : List (Fin 6 → α))
    (h5 : tri.length = 5) (hs : ∀ r ∈ tri, satRow x r) (htri : TriShape tri) :
    backSubst tri = x := by
  rcases tri with _ | ⟨t0, tri⟩
  · simp at h5
  rcases tri with _ | ⟨t1, tri⟩
  · simp at h5
  rcases tri with _ | ⟨t2, tri⟩
  · simp at h5
  rcases tri with _ | ⟨t3, tri⟩
  · simp at h5
  rcases tri with _ | ⟨t4, tri⟩
  · simp at h5
  rcases tri with _ | ⟨t5, tri⟩
  swap
  · simp at h5
  have g0 := htri 0 (by norm_num) (by norm_num)
  have g1 := htri 1 (by norm_num) (by norm_num)
  have g2 := htri 2 (by norm_num) (by norm_num)
  have g3 := htri 3 (by norm_num) (by norm_num)
  have g4 := htri 4 (by norm_num) (by norm_num)
  have z10 : t1 0 = 0 := g1.1 0 (by decide)
  have z20 : t2 0 = 0 := g2.1 0 (by decide)
  have z21 : t2 1 = 0 := g2.1 1 (by decide)
  have z30 : t3 0 = 0 := g3.1 0 (by decide)
  have z31 : t3 1 = 0 := g3.1 1 (by decide)
  have z32 : t3 2 = 0 := g3.1 2 (by decide)
  have z40 : t4 0 = 0 := g4.1 0 (by decide)
  have z41 : t4 1 = 0 := g4.1 1 (by decide)
  have z42 : t4 2 = 0 := g4.1 2 (by decide)
  have z43 : t4 3 = 0 := g4.1 3 (by decide)
  have d0 : eps12 ≤ |t0 0| := g0.2
  have d1 : eps12 ≤ |t1 1| := g1.2
  have d2 : eps12 ≤ |t2 2| := g2.2
  have d3 : eps12 ≤ |t3 3| := g3.2
  have d4 : eps12 ≤ |t4 4| := g4.2
  have d0ne : t0 0 ≠ 0 := abs_pos.mp (lt_of_lt_of_le eps12_pos d0)
  have d1ne : t1 1 ≠ 0 := abs_pos.mp (lt_of_lt_of_le eps12_pos d1)
  have d2ne : t2 2 ≠ 0 := abs_pos.mp (lt_of_lt_of_le eps12_pos d2)
  have d3ne : t3 3 ≠ 0 := abs_pos.mp (lt_of_lt_of_le eps12_pos d3)
  have d4ne : t4 4 ≠ 0 := abs_pos.mp (lt_of_lt_of_le eps12_pos d4)
  have f0 : t0 0 * x 0 + t0 1 * x 1 + t0 2 * x 2 + t0 3 * x 3 + t0 4 * x 4 = t0 5 :=
    hs t0 (by simp)
  have f1 : t1 0 * x 0 + t1 1 * x 1 + t1 2 * x 2 + t1 3 * x 3 + t1 4 * x 4 = t1 5 :=
    hs t1 (by simp)
  have f2 : t2 0 * x 0 + t2 1 * x 1 + t2 2 * x 2 + t2 3 * x 3 + t2 4 * x 4 = t2 5 :=
    hs t2 (by simp)
  have f3 : t3 0 * x 0 + t3 1 * x 1 + t3 2 * x 2 + t3 3 * x 3 + t3 4 * x 4 = t3 5 :=
    hs t3 (by simp)
  have f4 : t4 0 * x 0 + t4 1 * x 1 + t4 2 * x 2 + t4 3 * x 3 + t4 4 * x 4 = t4 5 :=
    hs t4 (by simp)
  have hx4 : t4 5 / t4 4 = x 4 := by
    rw [div_eq_iff d4ne]
    linear_combination -f4 + x 0 * z40 + x 1 * z41 + x 2 * z42 + x 3 * z43
  have hx3 : (t3 5 - t3 4 * x 4) / t3 3 = x 3 := by
    rw [div_eq_iff d3ne]
    linear_combination -f3 + x 0 * z30 + x 1 * z31 + x 2 * z32
  have hx2 : (t2 5 - t2 3 * x 3 - t2 4 * x 4) / t2 2 = x 2 := by
    rw [div_eq_iff d2ne]
    linear_combination -f2 + x 0 * z20 + x 1 * z21
  have hx1 : (t1 5 - t1 2 * x 2 - t1 3 * x 3 - t1 4 * x 4) / t1 1 = x 1 := by
    rw [div_eq_iff d1ne]
    linear_combination -f1 + x 0 * z10
  have hx0 : (t0 5 - t0 1 * x 1 - t0 2 * x 2 - t0 3 * x 3 - t0 4 * x 4) / t0 0 = x 0 := by
    rw [div_eq_iff d0ne]
    linear_combination -f0
  funext j
  fin_cases j
  · simp only [backSubst, Matrix.cons_val_zero]
    rw [hx4, hx3, hx2, hx1]
    exact hx0
  · simp only [backSubst, Matrix.cons_val_one, Matrix.head_cons]
    rw [hx4, hx3, hx2]
    exact hx1
  · simp only [backSubst, Matrix.cons_val_two, Matrix.tail_cons, Matrix.head_cons]
    rw [hx4, hx3]
    exact hx2
  · simp only [backSubst, Matrix.cons_val_three, Matrix.tail_cons, Matrix.head_cons]
    rw [hx4]
    exact hx3
  · simp only [backSubst, Matrix.cons_val_four, Matrix.tail_cons, Matrix.head_cons]
    exact hx4

end C1Back


section C1Real

theorem coefF_pos : (0 : ℝ) < coefF := by
  have hsc := Real.sin_sq_add_cos_sq (0.3 : ℝ)
  have h2 : 2 * Real.sin 0.3 * Real.cos 0.3 ≤ 1 := by
    nlinarith [sq_nonneg (Real.sin 0.3 - Real.cos 0.3)]
  unfold coefF coefA coefB coefC
  nlinarith [hsc, h2]

theorem detq : coefA * coefC - coefB ^ 2 / 4 = 1 / 2250000 := by
  have hsc := Real.sin_sq_add_cos_sq (0.3 : ℝ)
  unfold coefA coefB coefC
  linear_combination (Real.sin 0.3 ^ 2 + Real.cos 0.3 ^ 2 + 1) / 2250000 * hsc

theorem alga : coefA + coefC = 34 / 22500 := by
  have hsc := Real.sin_sq_add_cos_sq (0.3 : ℝ)
  unfold coefA coefC
  linear_combination (34 / 22500 : ℝ) * hsc

theorem conic_vanish (t : ℝ) :
    coefA * (ellipsePoint t).x ^ 2 + coefB * (ellipsePoint t).x * (ellipsePoint t).y +
      coefC * (ellipsePoint t).y ^ 2 + coefD * (ellipsePoint t).x +
      coefE * (ellipsePoint t).y + coefF = 0 := by
  have hsc := Real.sin_sq_add_cos_sq (0.3 : ℝ)
  have hsct := Real.sin_sq_add_cos_sq t
  simp only [ellipsePoint]
  unfold coefD coefE coefF coefA coefB coefC
  linear_combination (Real.sin t ^ 2 + Real.cos t ^ 2) *
    (Real.sin 0.3 ^ 2 + Real.cos 0.3 ^ 2 + 1) * hsc + hsct

theorem trueConic_satRow (p : Pt ℝ) (hp : onEllipse p) :
    satRow trueConic (augRow p) := by
  obtain ⟨t, rfl⟩ := hp
  have hF : coefF ≠ 0 := coefF_pos.ne'
  have hkey := conic_vanish t
  show (ellipsePoint t).x * (ellipsePoint t).x * (coefA / coefF) +
      (ellipsePoint t).x * (ellipsePoint t).y * (coefB / coefF) +
      (ellipsePoint t).y * (ellipsePoint t).y * (coefC / coefF) +
      (ellipsePoint t).x * (coefD / coefF) +
      (ellipsePoint t).y * (coefE / coefF) = -1
  field_simp
  linear_combination hkey

end C1Real


section C1Extract

theorem tc0 : trueConic 0 = coefA / coefF := rfl

theorem tc1 : trueConic 1 = coefB / coefF := rfl

theorem tc2 : trueConic 2 = coefC / coefF := rfl

theorem tc3 : trueConic 3 = coefD / coefF := rfl

theorem tc4 : trueConic 4 = coefE / coefF := rfl

theorem tc_disc : conicDisc trueConic = -(4 / 2250000) / coefF ^ 2 := by
  have hF : coefF ≠ 0 := coefF_pos.ne'
  have h1 : coefB / coefF * (coefB / coefF) - 4 * (coefA / coefF) * (coefC / coefF) =
      (coefB * coefB - 4 * coefA * coefC) / coefF ^ 2 := by
    ring
  have h2 : coefB * coefB - 4 * coefA * coefC = -(4 / 2250000) := by
    linear_combination (-4 : ℝ) * detq
  unfold conicDisc
  rw [tc0, tc1, tc2, h1, h2]

theorem tc_disc_neg : conicDisc trueConic < 0 := by
  rw [tc_disc]
  exact div_neg_of_neg_of_pos (by norm_num) (pow_pos coefF_pos 2)

theorem tc_denom : conicDenom trueConic = 4 / 2250000 / coefF ^ 2 := by
  have hF : coefF ≠ 0 := coefF_pos.ne'
  have h1 : 4 * (coefA / coefF) * (coefC / coefF) - coefB / coefF * (coefB / coefF) =
      (4 * coefA * coefC - coefB * coefB) / coefF ^ 2 := by
    ring
  have h2 : 4 * coefA * coefC - coefB * coefB = 4 / 2250000 := by
    linear_combination (4 : ℝ) * detq
  unfold conicDenom
  rw [tc0, tc1, tc2, h1, h2]

theorem hBE : coefB * coefE - 2 * coefC * coefD = 400 * coefA * coefC - 100 * coefB ^ 2 := by
  unfold coefD coefE
  ring

theorem hBD : coefB * coefD - 2 * coefA * coefE = 400 * coefA * coefC - 100 * coefB ^ 2 := by
  unfold coefD coefE
  ring

theorem tc_cx : conicCx trueConic = 100 := by
  have hF : coefF ≠ 0 := coefF_pos.ne'
  have hdz : (4 / 2250000 : ℝ) / coefF ^ 2 ≠ 0 :=
    div_ne_zero (by norm_num) (pow_ne_zero 2 hF)
  have h1 : coefB / coefF * (coefE / coefF) - 2 * (coefC / coefF) * (coefD / coefF) =
      (coefB * coefE - 2 * coefC * coefD) / coefF ^ 2 := by
    ring
  have h2 : coefB * coefE - 2 * coefC * coefD = 100 * (4 / 2250000) := by
    linear_combination hBE + (400 : ℝ) * detq
  unfold conicCx
  rw [tc1, tc4, tc2, tc3, h1, h2, tc_denom, mul_div_assoc,
    mul_div_cancel_right₀ 100 hdz]

theorem tc_cy : conicCy trueConic = 100 := by
  have hF : coefF ≠ 0 := coefF_pos.ne'
  have hdz : (4 / 2250000 : ℝ) / coefF ^ 2 ≠ 0 :=
    div_ne_zero (by norm_num) (pow_ne_zero 2 hF)
  have h1 : coefB / coefF * (coefD / coefF) - 2 * (coefA / coefF) * (coefE / coefF) =
      (coefB * coefD - 2 * coefA * coefE) / coefF ^ 2 := by
    ring
  have h2 : coefB * coefD - 2 * coefA * coefE = 100 * (4 / 2250000) := by
    linear_combination hBD + (400 : ℝ) * detq
  unfold conicCy
  rw [tc1, tc3, tc0, tc4, h1, h2, tc_denom, mul_div_assoc,
    mul_div_cancel_right₀ 100 hdz]

theorem tc_J : conicJ trueConic = -(1 / coefF) := by
  have hF : coefF ≠ 0 := coefF_pos.ne'
  unfold conicJ
  rw [tc_cx, tc_cy, tc0, tc1, tc2, tc3, tc4]
  field_simp
  unfold coefD coefE coefF
  ring

theorem tc_trace : conicTrace trueConic = 34 / 22500 / coefF := by
  unfold conicTrace
  rw [tc0, tc2, div_add_div_same, alga]

theorem tc_det2 : conicDet2 trueConic = 1 / 2250000 / coefF ^ 2 := by
  have hF : coefF ≠ 0 := coefF_pos.ne'
  have h1 : coefA / coefF * (coefC / coefF) - coefB / coefF / 2 * (coefB / coefF / 2) =
      (coefA * coefC - coefB ^ 2 / 4) / coefF ^ 2 := by
    ring
  unfold conicDet2
  rw [tc0, tc1, tc2, h1, detq]

theorem tc_sqrtDisc : conicSqrtDisc Real.sqrt trueConic = 8 / 22500 / coefF := by
  have hF : coefF ≠ 0 := coefF_pos.ne'
  have hFp := coefF_pos
  unfold conicSqrtDisc
  rw [tc_trace, tc_det2]
  have hsq : 34 / 22500 / coefF * (34 / 22500 / coefF) / 4 - 1 / 2250000 / coefF ^ 2 =
      (8 / 22500 / coefF) ^ 2 := by
    ring
  rw [hsq, max_eq_right (sq_nonneg _),
    Real.sqrt_sq (div_nonneg (by norm_num) hFp.le)]

theorem tc_lam1 : conicLambda1 Real.sqrt trueConic = 1 / 900 / coefF := by
  unfold conicLambda1
  rw [tc_trace, tc_sqrtDisc]
  ring

theorem tc_lam2 : conicLambda2 Real.sqrt trueConic = 1 / 2500 / coefF := by
  unfold conicLambda2
  rw [tc_trace, tc_sqrtDisc]
  ring

theorem tc_A2 : conicA2 Real.sqrt trueConic = 900 := by
  have hF : coefF ≠ 0 := coefF_pos.ne'
  unfold conicA2
  rw [tc_J, tc_lam1]
  field_simp

theorem tc_B2 : conicB2 Real.sqrt trueConic = 2500 := by
  have hF : coefF ≠ 0 := coefF_pos.ne'
  unfold conicB2
  rw [tc_J, tc_lam2]
  field_simp

theorem tc_sqa : Real.sqrt (conicA2 Real.sqrt trueConic) = 30 := by
  rw [tc_A2, show (900 : ℝ) = 30 ^ 2 by norm_num,
    Real.sqrt_sq (by norm_num : (0 : ℝ) ≤ 30)]

theorem tc_sqb : Real.sqrt (conicB2 Real.sqrt trueConic) = 50 := by
  rw [tc_B2, show (2500 : ℝ) = 50 ^ 2 by norm_num,
    Real.sqrt_sq (by norm_num : (0 : ℝ) ≤ 50)]

theorem tc_major : conicMajor Real.sqrt trueConic = 50 := by
  unfold conicMajor
  rw [tc_sqa, tc_sqb]
  exact max_eq_right (by norm_num)

theorem tc_minor : conicMinor Real.sqrt trueConic = 30 := by
  unfold conicMinor
  rw [tc_sqa, tc_sqb]
  exact min_eq_left (by norm_num)

theorem hACv : coefA - coefC = -(16 / 22500) * Real.cos 0.6 := by
  have h2 : Real.cos (0.6 : ℝ) = Real.cos 0.3 ^ 2 - Real.sin 0.3 ^ 2 := by
    rw [show (0.6 : ℝ) = 2 * 0.3 by norm_num, Real.cos_two_mul']
  unfold coefA coefC
  rw [h2]
  ring

theorem hBv : coefB = -(16 / 22500) * Real.sin 0.6 := by
  have h2 : Real.sin (0.6 : ℝ) = 2 * Real.sin 0.3 * Real.cos 0.3 := by
    rw [show (0.6 : ℝ) = 2 * 0.3 by norm_num, Real.sin_two_mul]
  unfold coefB
  rw [h2]
  ring

theorem tc_rot : conicRot atan2R trueConic = 1 / 2 * (0.6 - Real.pi) := by
  have hF : coefF ≠ 0 := coefF_pos.ne'
  unfold conicRot atan2R
  rw [tc1, tc0, tc2]
  have hz : (Complex.ofReal (coefA / coefF - coefC / coefF) +
      Complex.ofReal (coefB / coefF) * Complex.I) =
      Complex.ofReal (16 / 22500 / coefF) *
        (Complex.cos (Complex.ofReal (0.6 - Real.pi)) +
          Complex.sin (Complex.ofReal (0.6 - Real.pi)) * Complex.I) := by
    rw [← Complex.ofReal_cos, ← Complex.ofReal_sin, Real.cos_sub_pi, Real.sin_sub_pi]
    apply Complex.ext
    · simp only [Complex.add_re, Complex.ofReal_re, Complex.mul_re, Complex.I_re,
        Complex.I_im, Complex.ofReal_im, Complex.add_im, Complex.mul_im]
      rw [div_sub_div_same, hACv]
      ring
    · simp only [Complex.add_im, Complex.ofReal_re, Complex.mul_im, Complex.I_re,
        Complex.I_im, Complex.ofReal_im, Complex.add_re, Complex.mul_re]
      rw [hBv]
      ring
  rw [hz, Complex.arg_mul_cos_add_sin_mul_I (div_pos (by norm_num) coefF_pos)
    (by constructor
        · linarith [Real.pi_pos]
        · linarith [Real.pi_gt_three])]

theorem tc_finalRot : conicFinalRot Real.sqrt atan2R Real.pi trueConic = 0.3 := by
  unfold conicFinalRot
  rw [tc_sqa, tc_sqb, if_pos (by norm_num : (30 : ℝ) < 50), tc_rot]
  ring

theorem extract_trueConic (W : ℝ) (hW : 50 ≤ W) :
    extractEllipse Real.sqrt atan2R Real.pi W trueConic =
      some ⟨100, 100, 50, 30, 0.3⟩ := by
  unfold extractEllipse
  rw [if_neg (not_le.mpr tc_disc_neg),
    if_neg (by rw [tc_A2, tc_B2]; norm_num),
    if_neg (by rw [tc_major]; push_neg; exact ⟨by norm_num, hW⟩),
    tc_cx, tc_cy, tc_major, tc_minor, tc_finalRot]

end C1Extract


section C1Main

variable {α : Type} [LinearOrderedField α]

theorem argmaxAbsAux_nogain (col : Fin 6) (l : List (Fin 6 → α)) :
    ∀ (i best : ℕ) (bv : α), (∀ r ∈ l, ¬bv < |r col|) →
      argmaxAbsAux col l i best bv = best := by
  induction l with
  | nil => intro i best bv _; rfl
  | cons r t ih =>
    intro i best bv h
    simp only [argmaxAbsAux]
    rw [if_neg (h r (List.mem_cons_self r t))]
    exact ih (i + 1) best bv (fun q hq => h q (List.mem_cons_of_mem r hq))

theorem swapFront_zero (l : List (Fin 6 → α)) : swapFront l 0 = l := by
  cases l with
  | nil => rfl
  | cons a t => simp [swapFront]

theorem swapFront_pivot_rep5 (q : Fin 6 → α) (col : Fin 6) :
    swapFront [q, q, q, q, q] (pivotIdx col [q, q, q, q, q]) = [q, q, q, q, q] := by
  have h := argmaxAbsAux_nogain col [q, q, q, q] 1 0 (abs (q col)) (by
    intro s hs
    simp at hs
    subst hs
    exact lt_irrefl _)
  simp only [pivotIdx]
  rw [h]
  exact swapFront_zero _

theorem swapFront_pivot_rep4 (q : Fin 6 → α) (col : Fin 6) :
    swapFront [q, q, q, q] (pivotIdx col [q, q, q, q]) = [q, q, q, q] := by
  have h := argmaxAbsAux_nogain col [q, q, q] 1 0 (abs (q col)) (by
    intro s hs
    simp at hs
    subst hs
    exact lt_irrefl _)
  simp only [pivotIdx]
  rw [h]
  exact swapFront_zero _

theorem gaussElim_rep5_none (r : Fin 6 → α) (h0 : eps12 ≤ |r 0|) :
    gaussElim [r, r, r, r, r] = none := by
  have hne : r 0 ≠ 0 := abs_pos.mp (lt_of_lt_of_le eps12_pos h0)
  have hq : ∀ (h : (0 : ℕ) < 6) (j : Fin 6), reduceRow ⟨0, h⟩ r r j = 0 := by
    intro h j
    unfold reduceRow
    rw [if_pos (Fin.le_def.mpr (Nat.zero_le _))]
    have hne2 : r ⟨0, h⟩ ≠ 0 := hne
    rw [div_self hne2, one_mul, sub_self]
  have h0m : ∀ h : (0 : ℕ) < 6, eps12 ≤ |r ⟨0, h⟩| := fun _ => h0
  show elimAux 5 [] [r, r, r, r, r] = none
  rw [show (5 : ℕ) = 4 + 1 from rfl, elimAux_succ_cons]
  rw [dif_pos (by norm_num : ([] : List (Fin 6 → α)).length < 6)]
  simp only [swapFront_pivot_rep5, List.length_nil]
  rw [if_neg (not_lt.mpr (h0m (by norm_num)))]
  simp only [List.nil_append, List.map_cons, List.map_nil]
  rw [show (elimAux 4 : List (Fin 6 → α) → List (Fin 6 → α) → Option (List (Fin 6 → α))) =
    elimAux (3 + 1) from rfl, elimAux_succ_cons]
  rw [dif_pos (by norm_num : ([r]).length < 6)]
  simp only [swapFront_pivot_rep4, hq, abs_zero]
  rw [if_pos eps12_pos]

end C1Main


section C1Claim

theorem fitCircle_rep5_none {α : Type} [LinearOrderedField α]
    (sqrtF : α → α) (W : α) (p : Pt α) :
    fitCircleAsEllipse sqrtF W [p, p, p, p, p] = none := by
  unfold fitCircleAsEllipse
  simp only [List.foldl_cons, List.foldl_nil, List.length_cons, List.length_nil]
  rw [if_pos (by push_cast; ring_nf; norm_num [eps10])]

/-- Claim C1 (amended): for a list of exactly 5 points sampled exactly on the
reference ellipse (center `(100,100)`, semi-axes `(50,30)`, rotation `0.3`) and
a canvas width of at least 50, `fitEllipseFull` either falls back to the circle
fit (when elimination rejects a negligible pivot) or returns exactly the
reference descriptor `{cx 100, cy 100, major 50, minor 30, rotation 0.3}`. -/
theorem ellipse_roundtrip_amended (pts : List (Pt ℝ)) (h5 : pts.length = 5)
    (hon : ∀ p ∈ pts, onEllipse p) (W : ℝ) (hW : 50 ≤ W) :
    fitEllipseFull Real.sqrt atan2R Real.pi W pts =
        fitCircleAsEllipse Real.sqrt W pts ∨
      fitEllipseFull Real.sqrt atan2R Real.pi W pts =
        some ⟨100, 100, 50, 30, 0.3⟩ := by
  have hbs : buildSys pts = pts.map augRow := by
    unfold buildSys
    rw [if_pos h5]
  rcases hg : gaussElim (buildSys pts) with _ | tri
  · left
    simp only [fitEllipseFull, hg]
  · right
    have hsat : ∀ r ∈ buildSys pts, satRow trueConic r := by
      rw [hbs]
      intro r hr
      rcases List.mem_map.mp hr with ⟨p, hp, rfl⟩
      exact trueConic_satRow p (hon p hp)
    have hspec := gaussElim_spec trueConic (buildSys pts) tri hsat hg
    have hlen : tri.length = 5 := by
      rw [hspec.2.2, hbs, List.length_map, h5]
    have hback : backSubst tri = trueConic :=
      backSubst_eq_of_sat trueConic tri hlen hspec.1 hspec.2.1
    simp only [fitEllipseFull, hg, hback, extract_trueConic W hW]

/-- Counterexample to C1 as stated: five coincident samples of the reference
ellipse (all at parameter 0) satisfy the claim's hypotheses, yet
`fitEllipseFull` returns no descriptor at all — the first elimination step
leaves four zero rows, the column-1 pivot is below `1e-12`, and the circle-fit
fallback then rejects on an exactly zero determinant. -/
theorem ellipse_roundtrip_counterexample :
    onEllipse (ellipsePoint 0) ∧
    (List.replicate 5 (ellipsePoint 0)).length = 5 ∧
    fitEllipseFull Real.sqrt atan2R Real.pi 1000 (List.replicate 5 (ellipsePoint 0)) =
      none := by
  refine ⟨⟨0, rfl⟩, by simp, ?_⟩
  have hrep : List.replicate 5 (ellipsePoint 0) =
      [ellipsePoint 0, ellipsePoint 0, ellipsePoint 0, ellipsePoint 0,
        ellipsePoint 0] := rfl
  have hx : (ellipsePoint 0).x = 100 + 50 * Real.cos 0.3 := by
    show 100 + 50 * Real.cos 0 * Real.cos 0.3 - 30 * Real.sin 0 * Real.sin 0.3 = _
    rw [Real.cos_zero, Real.sin_zero]
    ring
  have hcos : 0 < Real.cos 0.3 := by
    apply Real.cos_pos_of_mem_Ioo
    constructor
    · have := Real.pi_gt_three
      norm_num
      linarith
    · have := Real.pi_gt_three
      linarith
  have hr0 : eps12 ≤ |augRow (ellipsePoint 0) 0| := by
    have h1 : augRow (ellipsePoint 0) 0 = (ellipsePoint 0).x * (ellipsePoint 0).x := rfl
    rw [h1, hx, abs_of_pos (by nlinarith)]
    show (1 : ℝ) / 1000000000000 ≤ _
    nlinarith
  have hsys : buildSys (List.replicate 5 (ellipsePoint 0)) =
      [augRow (ellipsePoint 0), augRow (ellipsePoint 0), augRow (ellipsePoint 0),
        augRow (ellipsePoint 0), augRow (ellipsePoint 0)] := by
    unfold buildSys
    rw [if_pos (by simp)]
    rfl
  have hgauss : gaussElim (buildSys (List.replicate 5 (ellipsePoint 0))) = none := by
    rw [hsys]
    exact gaussElim_rep5_none _ hr0
  simp only [fitEllipseFull, hgauss]
  rw [hrep]
  exact fitCircle_rep5_none Real.sqrt 1000 (ellipsePoint 0)

/-- Witness for C1 (amended) at five distinct samples of the reference
ellipse and canvas width 1000. -/
theorem ellipse_roundtrip_amended_witness :
    ([ellipsePoint 0, ellipsePoint 1, ellipsePoint 2, ellipsePoint 3,
        ellipsePoint 4] : List (Pt ℝ)).length = 5 ∧ (50 : ℝ) ≤ 1000 ∧
    (fitEllipseFull Real.sqrt atan2R Real.pi 1000
        [ellipsePoint 0, ellipsePoint 1, ellipsePoint 2, ellipsePoint 3,
          ellipsePoint 4] =
      fitCircleAsEllipse Real.sqrt 1000
        [ellipsePoint 0, ellipsePoint 1, ellipsePoint 2, ellipsePoint 3,
          ellipsePoint 4] ∨
      fitEllipseFull Real.sqrt atan2R Real.pi 1000
        [ellipsePoint 0, ellipsePoint 1, ellipsePoint 2, ellipsePoint 3,
          ellipsePoint 4] =
        some ⟨100, 100, 50, 30, 0.3⟩) :=
  ⟨rfl, by norm_num,
    ellipse_roundtrip_amended
      [ellipsePoint 0, ellipsePoint 1, ellipsePoint 2, ellipsePoint 3, ellipsePoint 4]
      rfl
      (by
        intro p hp
        simp only [List.mem_cons, List.not_mem_nil, or_false] at hp
        rcases hp with rfl | rfl | rfl | rfl | rfl
        · exact ⟨0, rfl⟩
        · exact ⟨1, rfl⟩
        · exact ⟨2, rfl⟩
        · exact ⟨3, rfl⟩
        · exact ⟨4, rfl⟩)
      1000 (by norm_num)⟩

end C1Claim


end ThrowSage
